import Mathlib

/-!
Verification of the bwross/ftp control-channel codec, data-channel byte
transform, session state machine, authentication layer, command dispatcher
and address parsers, against a shallow embedding of the Go source.

Strings from the Go source are modelled as lists of characters (`Str`),
byte-for-byte.  Go functions are translated into executable Lean functions;
stateful methods become explicit state passing.  External effects
(filesystem, sockets) are parameterized by oracles.
-/

/-- Strings are modelled as lists of characters, so that the list lemmas of
Mathlib (`splitOn`, `intercalate`) apply directly. -/
abbrev Str := List Char

namespace Ftp

/-! ## Decimal formatting (model of strconv.Itoa / fmt %d) -/

/-- Base-`b` digits of `n`, least significant first, with explicit fuel so the
kernel can evaluate it.  Agrees with `Nat.digits` (see `digitsAux_eq_digits`). -/
def digitsAux (b : Nat) : Nat → Nat → List Nat
  | 0, _ => []
  | _ + 1, 0 => []
  | f + 1, n + 1 => (n + 1) % b :: digitsAux b f ((n + 1) / b)

/-- Kernel-evaluable version of `Nat.digits b n` (least significant first). -/
def digitsOf (b n : Nat) : List Nat := digitsAux b n n

/-- Decimal digits of `n`, most significant first, as characters. -/
def decChars (n : Nat) : Str :=
  if n = 0 then ['0']
  else ((digitsOf 10 n).reverse).map fun d => Char.ofNat (d + 48)

/-- Model of strings.Join / the separator-joining inside Go path.Join. -/
def strJoin (sep : Str) : List Str → Str
  | [] => []
  | [s] => s
  | s :: rest => s ++ sep ++ strJoin sep rest

/-- Model of the `%03d` verb of fmt: decimal, zero-padded to width 3. -/
def fmtCode (code : Nat) : Str :=
  let s := decChars code
  List.replicate (3 - s.length) '0' ++ s

/-! ## Reply encoding (src/channel.go)

`Reply.Lines` splits the message on newlines after normalizing CRLF, and
`Reply.Encode` writes the reply as CRLF-terminated lines through
`textproto.Writer.PrintfLine`.  We model the encoded output as the list of
emitted lines (without their trailing CRLF, which `PrintfLine` appends to
every line uniformly). -/

/-- Model of a wire `Reply` (src/channel.go): code and message. -/
structure ReplyM where
  code : Nat
  msg : Str
  deriving Repr, DecidableEq

/-- Model of `strings.Replace(msg, "\r\n", "\n", -1)`: replace every
occurrence, left to right. -/
def replaceCRLF : Str → Str
  | [] => []
  | '\r' :: '\n' :: rest => '\n' :: replaceCRLF rest
  | c :: rest => c :: replaceCRLF rest

/-- Model of `Reply.Lines` (src/channel.go): normalize CRLF to LF, then split
on LF. -/
def ReplyM.lines (r : ReplyM) : List Str :=
  (replaceCRLF r.msg).splitOn '\n'

/-- Helper for the tail of `Reply.Encode` as written in src/channel.go: the
lines after the first are emitted with a single-space prefix, except the last
which is emitted as `"<code> <line>"`. -/
def encodeTail (code : Nat) : List Str → List Str
  | [] => []
  | [l] => [fmtCode code ++ (' ' :: l)]
  | l :: rest => (' ' :: l) :: encodeTail code rest

/-- Model of `Reply.Encode` (src/channel.go): a one-line message is emitted as
`"<code> <line>"`; with more lines, the first is `"<code>-<line>"`, the middle
lines are `" <line>"`, and the last is `"<code> <line>"`. -/
def ReplyM.encode (r : ReplyM) : List Str :=
  match r.lines with
  | [] => []
  | [l] => [fmtCode r.code ++ (' ' :: l)]
  | l :: rest => (fmtCode r.code ++ ('-' :: l)) :: encodeTail r.code rest

/-- The encoding shape asserted by the specification: every line except the
last carries the `"<code>-"` prefix, and the last carries `"<code> "`. -/
def specEncodeAllDash (r : ReplyM) : List Str :=
  let ls := r.lines
  (ls.dropLast.map fun l => fmtCode r.code ++ ('-' :: l))
    ++ [fmtCode r.code ++ (' ' :: ls.getLastD [])]

/-- The encoding shape the source actually implements, phrased positionally:
first line `"<code>-"`, middle lines a single space, last line `"<code> "`. -/
def specEncodeAmended (r : ReplyM) : List Str :=
  let ls := r.lines
  if ls.length ≤ 1 then
    [fmtCode r.code ++ (' ' :: ls.getLastD [])]
  else
    (fmtCode r.code ++ ('-' :: ls.headI))
      :: ((ls.drop 1).dropLast.map fun l => ' ' :: l)
      ++ [fmtCode r.code ++ (' ' :: ls.getLastD [])]

/-! ## Type-aware data-channel write (src/conn.go) -/

/-- Model of `Conn.writeASCII` (src/conn.go): one step per input byte; a
standalone LF (seen while the `cr` flag is off) is preceded by an emitted CR;
otherwise the `cr` flag records whether the byte was a CR.  Returns the
emitted bytes and the final `cr` flag. -/
def writeASCII (cr : Bool) : Str → Str × Bool
  | [] => ([], cr)
  | b :: rest =>
    if !cr && b = '\n' then
      let o := writeASCII cr rest
      ('\r' :: b :: o.1, o.2)
    else
      let o := writeASCII (b = '\r') rest
      (b :: o.1, o.2)

/-- The transform described by the specification sentence: an emitted CR is
inserted before every LF that is not immediately preceded by a CR in the
cumulative input byte stream; the state is the previous input byte. -/
def asciiRef (prev : Option Char) : Str → Str × Option Char
  | [] => ([], prev)
  | b :: rest =>
    let o := asciiRef (some b) rest
    if b = '\n' && prev ≠ some '\r' then ('\r' :: b :: o.1, o.2)
    else (b :: o.1, o.2)

/-- Model of `Conn.Write` (src/conn.go): transfer type `"A"` routes through
`writeASCII`; any other type (in particular `"I"`) passes bytes through
unchanged. -/
def connWrite (typ : Str) (cr : Bool) (b : Str) : Str × Bool :=
  if typ = "A".data then writeASCII cr b else (b, cr)

/-! ## Session control-channel state machine (src/session.go)

A `Session` holds a textproto connection (modelled by the flag `connOpen`),
the pending command and the greeting flag.  Replies and connection closes are
recorded in an event trace.  `wireOK` models whether encoding and flushing a
reply on the wire succeeds; mutations in the Go methods happen only after a
successful write, so a failed write leaves the state unchanged.  A Go nil
dereference (closing the connection twice inside one `Close` chain, possible
when a QUIT command is pending at `Close`) is modelled by the `panicked`
error. -/

/-- Model of a control-channel `Command` (src/channel.go): verb and message. -/
structure Cmd where
  cmd : Str
  msg : Str
  deriving Repr, DecidableEq

/-- State of `Session` (src/session.go): `connOpen` models `conn != nil`. -/
structure SessionSt where
  connOpen : Bool
  cmd : Option Cmd
  greeted : Bool
  deriving Repr, DecidableEq

/-- Observable events on the control connection. -/
inductive Ev where
  | reply (code : Nat) (msg : Str)
  | connClose
  deriving Repr, DecidableEq

/-- Errors returned (or raised) by session methods. -/
inductive SErr where
  | closed
  | noCmd
  | wire
  | panicked
  deriving Repr, DecidableEq

/-- Result of a session method: final state, emitted events, optional error. -/
structure SOut where
  st : SessionSt
  evs : List Ev
  err : Option SErr
  deriving Repr, DecidableEq

/-- Default greeting (src/ftp.go DefaultGreeting "Welcome."). -/
def greetingMsg : Str := "Welcome.".data

/-- Default goodbye (src/ftp.go DefaultGoodbye "Goodbye."). -/
def goodbyeMsg : Str := "Goodbye.".data

/-- Measure for the `Reply`/`Close` mutual recursion: `Reply` only calls
`Close` after clearing the pending command. -/
def cmdWeight (s : SessionSt) : Nat :=
  match s.cmd with
  | some _ => 1
  | none => 0

mutual

/-- Model of `Session.Reply` (src/session.go): refuse on a closed session or
with no command to reply to; encode and flush (failure modelled by `wireOK`);
a preliminary code (< 200) leaves the pending command in place; a final code
clears it, and a final reply to QUIT closes the session. -/
def sreply (wireOK : Bool) (code : Nat) (msg : Str) (s : SessionSt) : SOut :=
  if s.connOpen = false then ⟨s, [], some .closed⟩
  else if s.cmd = none ∧ s.greeted = true then ⟨s, [], some .noCmd⟩
  else if wireOK = false then ⟨s, [], some .wire⟩
  else
    if code < 200 then ⟨s, [.reply code msg], none⟩
    else
      match hc : s.cmd with
      | none => ⟨{ s with greeted := true }, [.reply code msg], none⟩
      | some c =>
        if c.cmd = "QUIT".data then
          let o := sclose wireOK { s with cmd := none }
          ⟨o.st, .reply code msg :: o.evs, o.err⟩
        else ⟨{ s with cmd := none }, [.reply code msg], none⟩
termination_by (cmdWeight s, 0)
decreasing_by
  simp [cmdWeight, hc, Prod.lex_iff]

/-- Model of `Session.Close` (src/session.go): refuse when already closed;
when a command is pending or no greeting was sent, send a 421 goodbye whose
error is ignored (a Go panic still propagates); then close the underlying
connection, a nil dereference if the goodbye reply already closed it. -/
def sclose (wireOK : Bool) (s : SessionSt) : SOut :=
  if s.connOpen = false then ⟨s, [], some .closed⟩
  else
    let o1 : SOut :=
      if s.cmd ≠ none ∨ s.greeted = false then
        let r := sreply wireOK 421 goodbyeMsg s
        if r.err = some .panicked then r else ⟨r.st, r.evs, none⟩
      else ⟨s, [], none⟩
    if o1.err = some .panicked then o1
    else if o1.st.connOpen then
      ⟨{ o1.st with connOpen := false }, o1.evs ++ [.connClose], none⟩
    else ⟨o1.st, o1.evs, some .panicked⟩
termination_by (cmdWeight s, 1)
decreasing_by
  simp [cmdWeight, Prod.lex_iff]

end

/-- Model of `Session.Command` (src/session.go): refuse on a closed session;
send the greeting first if not yet greeted; return the pending command if one
exists, else read the next command (`next` stands for the decoded line) and
make it pending. -/
def scommand (wireOK : Bool) (next : Cmd) (s : SessionSt) :
    Option Cmd × SOut :=
  if s.connOpen = false then (none, ⟨s, [], some .closed⟩)
  else
    let g : SOut :=
      if s.greeted = false then sreply wireOK 220 greetingMsg s
      else ⟨s, [], none⟩
    if g.err ≠ none then (none, g)
    else
      match g.st.cmd with
      | some c => (some c, g)
      | none => (some next, ⟨{ g.st with cmd := some next }, g.evs, none⟩)

/-! ## Address encodings (src/conn.go) and the net stdlib model

`HostPort`, `EHostPort`, `ParsePORT` and `ParseEPRT` call into the Go net and
strconv packages; those stdlib functions (`net.IP.String`, `net.ParseIP`,
`net.LookupPort`, `strconv.Itoa`, `strconv.ParseUint`) are modelled here
byte-faithfully.  An IP is a list of byte values of length 4 or 16. -/

/-- Model of `net.TCPAddr` restricted to what the repository reads from it:
IP bytes and port (`findIPAndPort` in src/conn.go returns exactly these for a
TCP address). -/
structure TCPAddrM where
  ip : List Nat
  port : Nat
  deriving Repr, DecidableEq

/-- The 12-byte prefix of an IPv4-mapped IPv6 address (Go `v4InV6Prefix`). -/
def v4Prefix : List Nat := [0, 0, 0, 0, 0, 0, 0, 0, 0, 0, 255, 255]

/-- Model of `net.IP.To4`: a 4-byte address itself, the low four bytes of an
IPv4-mapped 16-byte address, nil otherwise. -/
def ipTo4 (ip : List Nat) : Option (List Nat) :=
  if ip.length = 4 then some ip
  else if ip.length = 16 ∧ ip.take 12 = v4Prefix then some (ip.drop 12)
  else none

/-- Model of `net.IP.To16`: a 4-byte address mapped into IPv6, a 16-byte
address itself, nil otherwise. -/
def ipTo16 (ip : List Nat) : Option (List Nat) :=
  if ip.length = 4 then some (v4Prefix ++ ip)
  else if ip.length = 16 then some ip
  else none

/-- Decimal digit test, for the stdlib number parsers. -/
def isDigitChar (c : Char) : Bool := 48 ≤ c.toNat ∧ c.toNat ≤ 57

/-- Full-string decimal parse: nonempty all-digit strings only (shared core
of the strconv/net numeric parsers). -/
def parseDecAll (s : Str) : Option Nat :=
  if s ≠ [] ∧ s.all isDigitChar then
    some (s.foldl (fun acc c => acc * 10 + (c.toNat - 48)) 0)
  else none

/-- Model of `strconv.ParseUint(s, 10, 8)` as used by `ParsePORT`: a decimal
byte value. -/
def parseUint8 (s : Str) : Option Nat :=
  match parseDecAll s with
  | some n => if n ≤ 255 then some n else none
  | none => none

/-- Model of `net.LookupPort("tcp", s)` on numeric services: a decimal port
in `0..65535`. -/
def lookupPortTCP (s : Str) : Option Nat :=
  match parseDecAll s with
  | some n => if n ≤ 65535 then some n else none
  | none => none

/-- Dotted-quad rendering of four byte values (Go `net.IP.String`, IPv4). -/
def dotted (b : List Nat) : Str := strJoin ".".data (b.map decChars)

/-- Lowercase hex digit. -/
def hexDigitChar (d : Nat) : Char :=
  if d < 10 then Char.ofNat (48 + d) else Char.ofNat (87 + d)

/-- Lowercase hex of `n` without leading zeros (Go `appendHex`). -/
def hexChars (n : Nat) : Str :=
  if n = 0 then ['0']
  else ((digitsOf 16 n).reverse).map hexDigitChar

/-- The 16-bit groups of a 16-byte IPv6 address, big endian. -/
def toGroups : List Nat → List Nat
  | a :: b :: rest => (a * 256 + b) :: toGroups rest
  | _ => []

/-- Number of leading zero groups. -/
def zeroLenFrom : List Nat → Nat
  | 0 :: rest => 1 + zeroLenFrom rest
  | _ => 0

/-- First longest run of zero groups (start index amid length), strict
comparison so the earliest longest run wins — Go `net.IP.String`. -/
def bestRunGo (gs : List Nat) : Nat × Nat :=
  (List.range gs.length).foldl
    (fun best i =>
      let l := zeroLenFrom (gs.drop i)
      if l > best.2 then (i, l) else best)
    (0, 0)

/-- The zero run Go compresses with `"::"`: the first longest, only when at
least two groups long. -/
def findRun (gs : List Nat) : Option (Nat × Nat) :=
  let b := bestRunGo gs
  if 2 ≤ b.2 then some b else none

/-- Hex-group rendering of an IPv6 address with `"::"` compression (Go
`net.IP.String`, 16-byte non-v4-mapped case). -/
def v6String (gs : List Nat) : Str :=
  match findRun gs with
  | none => strJoin ":".data (gs.map hexChars)
  | some (s, l) =>
      strJoin ":".data ((gs.take s).map hexChars) ++ "::".data
        ++ strJoin ":".data ((gs.drop (s + l)).map hexChars)

/-- Model of `net.IP.String` on 4- and 16-byte addresses: dotted quad for
IPv4 and IPv4-mapped addresses, compressed hex groups otherwise. -/
def ipString (ip : List Nat) : Str :=
  if ip.length = 4 then dotted ip
  else if ip.length = 16 then
    match ipTo4 ip with
    | some b4 => dotted b4
    | none => v6String (toGroups ip)
  else "?".data

/-- Model of the IPv4-field parse of `net.ParseIP`: one to three decimal
digits, no leading zero, value at most 255. -/
def parseV4Field (f : Str) : Option Nat :=
  if f = [] then none
  else if ¬f.all isDigitChar then none
  else if 1 < f.length ∧ f.head? = some '0' then none
  else if 3 < f.length then none
  else match parseDecAll f with
    | some n => if n ≤ 255 then some n else none
    | none => none

/-- Model of `net.ParseIP` on dotted quads: four fields, returned in Go's
16-byte IPv4-mapped form. -/
def parseV4 (s : Str) : Option (List Nat) :=
  match (s.splitOn '.').mapM parseV4Field with
  | some [a, b, c, d] => some (v4Prefix ++ [a, b, c, d])
  | _ => none

/-- Hex digit value, both cases (Go `xtoi`). -/
def hexVal (c : Char) : Option Nat :=
  if 48 ≤ c.toNat ∧ c.toNat ≤ 57 then some (c.toNat - 48)
  else if 97 ≤ c.toNat ∧ c.toNat ≤ 102 then some (c.toNat - 87)
  else if 65 ≤ c.toNat ∧ c.toNat ≤ 70 then some (c.toNat - 55)
  else none

/-- Model of Go `xtoi`: consume a maximal hex prefix; fails on no digits or
on values reaching `0xFFFFFF`.  Returns value, consumed count, success. -/
def xtoiAux : Str → Nat → Nat → Nat × Nat × Bool
  | [], n, i => if i = 0 then (0, 0, false) else (n, i, true)
  | c :: rest, n, i =>
    match hexVal c with
    | none => if i = 0 then (0, i, false) else (n, i, true)
    | some v =>
      let n2 := n * 16 + v
      if 0xFFFFFF ≤ n2 then (0, i, false) else xtoiAux rest n2 (i + 1)

/-- Entry point of the `xtoi` model. -/
def xtoi (s : Str) : Nat × Nat × Bool := xtoiAux s 0 0

/-- Final phase of Go `parseV6`: with fewer than 16 bytes an ellipsis must be
present and is expanded with zeros; with all 16 bytes an ellipsis is an
error. -/
def parseV6Finish (i : Nat) (ell : Option Nat) (acc : List Nat) :
    Option (List Nat) :=
  if i < 16 then
    match ell with
    | none => none
    | some e => some (acc.take e ++ List.replicate (16 - i) 0 ++ acc.drop e)
  else
    match ell with
    | some _ => none
    | none => some acc

/-- Loop of Go `parseV6`: reads one hex group per step (or a trailing
embedded IPv4), tracks the byte count `i` and the ellipsis position.  The
loop body runs at most eight times (`i` grows by two each step), hence the
fuel. -/
def parseV6Loop (fuel : Nat) (s : Str) (i : Nat) (ell : Option Nat)
    (acc : List Nat) : Option (List Nat) :=
  match fuel with
  | 0 => none
  | fuel + 1 =>
    let x := xtoi s
    if x.2.2 = false ∨ 0xFFFF < x.1 then none
    else if x.2.1 < s.length ∧ s.getD x.2.1 ' ' = '.' then
      if ell = none ∧ i ≠ 12 then none
      else if 16 < i + 4 then none
      else
        match parseV4 s with
        | none => none
        | some ip4 => parseV6Finish (i + 4) ell (acc ++ ip4.drop 12)
    else
      let acc2 := acc ++ [x.1 / 256, x.1 % 256]
      let i2 := i + 2
      if x.2.1 = s.length then parseV6Finish i2 ell acc2
      else if s.getD x.2.1 ' ' ≠ ':' ∨ x.2.1 + 1 = s.length then none
      else
        let s2 := s.drop (x.2.1 + 1)
        if s2.head? = some ':' then
          if ell ≠ none then none
          else
            let s3 := s2.drop 1
            if s3 = [] then parseV6Finish i2 (some i2) acc2
            else if i2 < 16 then parseV6Loop fuel s3 i2 (some i2) acc2
            else none
        else if i2 < 16 then parseV6Loop fuel s2 i2 ell acc2
        else none

/-- Model of Go `parseV6`: leading `"::"` seeds the ellipsis; `"::"` alone is
the all-zero address. -/
def parseV6 (s : Str) : Option (List Nat) :=
  if 2 ≤ s.length ∧ s.take 2 = "::".data then
    let s2 := s.drop 2
    if s2 = [] then some (List.replicate 16 0)
    else parseV6Loop 8 s2 0 (some 0) []
  else parseV6Loop 8 s 0 none []

/-- Inverse of `toGroups`: the big-endian byte pair of each group. -/
def fromGroups : List Nat → List Nat
  | [] => []
  | g :: gs => g / 256 :: g % 256 :: fromGroups gs

/-- The plain (uncompressed) hex-group rendering, `strJoin` over
`hexChars`. -/
def plainS (gs : List Nat) : Str := strJoin ":".data (gs.map hexChars)

/-- Model of `net.ParseIP`: dispatch on the first `'.'` or `':'`. -/
def parseIP (s : Str) : Option (List Nat) :=
  match s.find? fun c => c = '.' ∨ c = ':' with
  | some '.' => parseV4 s
  | some ':' => parseV6 s
  | _ => none

/-- Model of `validDelimiter` (src/conn.go) on a single character: printable
ASCII between `'!'` and `'~'`. -/
def validDelim (d : Char) : Bool := 33 ≤ d.toNat ∧ d.toNat ≤ 126

/-- Model of `splitEAddr` (src/conn.go): the first character is the
delimiter, which must be valid and also terminate the string; the remainder
splits into exactly three fields. -/
def splitEAddr (s : Str) : Option (Str × Str × Str) :=
  if s.length < 2 then none
  else
    match s with
    | [] => none
    | d :: rest =>
      if validDelim d = false ∨ s.getLast? ≠ some d then none
      else
        match rest.dropLast.splitOn d with
        | [a, b, c] => some (a, b, c)
        | _ => none

/-- Model of `HostPort` (src/conn.go): requires an address convertible to
IPv4 and renders the six-tuple `h1,h2,h3,h4,p/256,p%256`. -/
def hostPort (a : TCPAddrM) : Option Str :=
  match ipTo4 a.ip with
  | none => none
  | some h =>
    some (strJoin ",".data
      [decChars (h.getD 0 0), decChars (h.getD 1 0), decChars (h.getD 2 0),
        decChars (h.getD 3 0), decChars (a.port / 256), decChars (a.port % 256)])

/-- Model of `EHostPort` (src/conn.go): an empty delimiter defaults to `"|"`,
other delimiters must be valid; protocol `"1"` for 4-byte and `"2"` for
16-byte addresses; any field containing the delimiter is rejected; result is
`d proto d host d port d`. -/
def eHostPort (d0 : Str) (a : TCPAddrM) : Option Str :=
  let d : Str := if d0 = [] then "|".data else d0
  if d0 ≠ [] ∧ ¬(d0.length = 1 ∧ validDelim (d0.headD ' ')) then none
  else
    let parts : Option (List Str) :=
      if a.ip.length = 4 then some ["1".data, ipString a.ip, decChars a.port]
      else if a.ip.length = 16 then some ["2".data, ipString a.ip, decChars a.port]
      else none
    match parts with
    | none => none
    | some ps =>
      if ps.any fun p => (d.headD ' ') ∈ p then none
      else some (d ++ strJoin d ps ++ d)

/-- Model of `ParsePORT` (src/conn.go): six comma-separated decimal bytes;
the port is the big-endian 16-bit value of the last two. -/
def parsePORT (msg : Str) : Option TCPAddrM :=
  let split := msg.splitOn ','
  if split.length = 6 then
    match split.mapM parseUint8 with
    | none => none
    | some b =>
      some ⟨b.take 4, (b.getD 4 0) * 256 + b.getD 5 0⟩
  else none

/-- Model of `ParseEPRT` (src/conn.go): split the delimited form, require
protocol `"1"` or `"2"`, parse the port, parse the host and convert with
`To4` or `To16` according to the protocol. -/
def parseEPRT (msg : Str) : Option TCPAddrM :=
  match splitEAddr msg with
  | none => none
  | some (nw, host, port) =>
    if nw ≠ "1".data ∧ nw ≠ "2".data then none
    else
      match lookupPortTCP port with
      | none => none
      | some p =>
        let ip :=
          if nw = "1".data then (parseIP host).bind ipTo4
          else (parseIP host).bind ipTo16
        match ip with
        | none => none
        | some ip => some ⟨ip, p⟩

/-! ## Authentication layer (src/auth.go)

`AuthHandler.handle` processes one command of the USER/PASS sub-protocol.
The context fields it touches are `User` and `Password`; replies go through
`Session.Reply` (modelled here with an always-working wire, since the claim
is about dispatch logic).  The authorizer is an oracle: `none` models a nil
`Authorizer` (anonymous-only mode); `some f` models `Authorize`, returning
the boolean outcome and an optional error. -/

/-- User/password part of the session `Context` (src/context.go). -/
structure AuthCtx where
  user : Str
  password : Str
  deriving Repr, DecidableEq

/-- Result of one `AuthHandler.handle` step: updated context and session
state, emitted events, and an error (`authErr` models a non-nil error from
`Authorize`, propagated to the caller). -/
structure AOut where
  ctx : AuthCtx
  st : SessionSt
  evs : List Ev
  err : Option SErr
  authErr : Bool
  deriving Repr, DecidableEq

/-- Model of `AuthHandler.authorize` (src/auth.go): with no Authorizer, only
`"anonymous"` is accepted; otherwise defer to the Authorizer. -/
def authAuthorize (authz : Option (Str → Str → Bool × Bool)) (user pass : Str) :
    Bool × Bool :=
  match authz with
  | none => (user = "anonymous".data, false)
  | some f => f user pass

/-- Model of `AuthHandler.handle` (src/auth.go): USER records the name (or
rejects an empty one with 504, or answers 331 without recording in
anonymous-only mode); PASS requires a recorded user (503), then authorizes:
success records the password and replies 230, an authorizer error clears the
user and propagates with no reply, and a rejection clears the user and
replies 430; QUIT replies 211; anything else replies 530. -/
def authHandle (authz : Option (Str → Str → Bool × Bool)) (ctx : AuthCtx)
    (st : SessionSt) (c : Cmd) : AOut :=
  if c.cmd = "USER".data then
    if c.msg = [] then
      let o := sreply true 504 "A user name is required.".data st
      ⟨ctx, o.st, o.evs, o.err, false⟩
    else if authz.isNone = true ∧ c.msg ≠ "anonymous".data then
      let o := sreply true 331 "This server is anonymous only.".data st
      ⟨ctx, o.st, o.evs, o.err, false⟩
    else
      let o := sreply true 331 "Please specify the password.".data st
      ⟨{ ctx with user := c.msg }, o.st, o.evs, o.err, false⟩
  else if c.cmd = "PASS".data then
    if ctx.user = [] then
      let o := sreply true 503 "Log in with USER first.".data st
      ⟨ctx, o.st, o.evs, o.err, false⟩
    else
      let r := authAuthorize authz ctx.user c.msg
      if r.2 = false ∧ r.1 = true then
        let o := sreply true 230 "Login successful.".data st
        ⟨{ ctx with password := c.msg }, o.st, o.evs, o.err, false⟩
      else if r.2 = true then
        ⟨{ ctx with user := [] }, st, [], none, true⟩
      else
        let o := sreply true 430 "Invalid user name or password.".data st
        ⟨{ ctx with user := [] }, o.st, o.evs, o.err, false⟩
  else if c.cmd = "QUIT".data then
    let o := sreply true 211 "Goodbye.".data st
    ⟨ctx, o.st, o.evs, o.err, false⟩
  else
    let o := sreply true 530 "Log in with USER and PASS.".data st
    ⟨ctx, o.st, o.evs, o.err, false⟩

/-- Loop-exit condition of `AuthHandler.Handle` (src/auth.go): the
sub-protocol ends after a PASS that left a user recorded, or after QUIT. -/
def authDone (ctx : AuthCtx) (c : Cmd) : Bool :=
  (c.cmd = "PASS".data ∧ ctx.user ≠ []) ∨ c.cmd = "QUIT".data

/-! ## POSIX path cleaning (model of Go path.Clean / path.Join)

The repository resolves paths with `path.IsAbs`, `path.Join` and implicitly
`path.Clean` (src/context.go, src/fs.go).  `clean` below is the segment-stack
formulation of Go `path.Clean`: split on `'/'`, drop empty and `"."` segments,
let `".."` pop the stack (dropped at the root when the path is rooted, kept
when relative and nothing remains to pop), and reassemble. -/

/-- Stack interpreter for Go path.Clean over the list of segments.  `acc` is
the output stack, most recent segment first. -/
def cleanRun (rooted : Bool) (acc : List Str) : List Str → List Str
  | [] => acc
  | s :: rest =>
    if s = [] ∨ s = ".".data then cleanRun rooted acc rest
    else if s = "..".data then
      match acc with
      | [] => if rooted then cleanRun rooted [] rest
              else cleanRun rooted ["..".data] rest
      | t :: ts =>
        if rooted then cleanRun rooted ts rest
        else if t = "..".data then cleanRun rooted ("..".data :: acc) rest
        else cleanRun rooted ts rest
    else cleanRun rooted (s :: acc) rest

/-- Model of Go path.Clean. -/
def clean (p : Str) : Str :=
  if p = [] then ".".data
  else
    let rooted := p.head? = some '/'
    let segs := cleanRun rooted [] (p.splitOn '/')
    let out := strJoin "/".data segs.reverse
    if rooted then '/' :: out
    else if out = [] then ".".data else out

/-- Model of Go path.Join: drop empty elements, join the rest with `"/"`,
clean; all-empty input yields the empty string without cleaning. -/
def goJoin (elems : List Str) : Str :=
  let parts := elems.filter fun e => e ≠ []
  if parts = [] then [] else clean (strJoin "/".data parts)

/-- Model of Go path.IsAbs: the path begins with `'/'`. -/
def isAbs (p : Str) : Bool := p.head? = some '/'

/-- Model of `Context.Path` (src/context.go): an absolute path is returned
unchanged; otherwise join `"/"`, the working directory and `p`. -/
def ctxPath (dir p : Str) : Str :=
  if isAbs p then p else goJoin ["/".data, dir, p]

/-- Model of `LocalFileSystem.path` (src/fs.go): resolve `p` under `"/"` to
prevent directory traversal, then join it under `Root` (or `"."`). -/
def lfsPath (root p : Str) : Str :=
  let q := goJoin ["/".data, p]
  if root = [] then goJoin [".".data, q] else goJoin [root, q]

/-- Names for the os-package calls `LocalFileSystem` forwards to. -/
inductive OsCall where
  | create (p : Str)
  | mkdir (p : Str)
  | openf (p : Str)
  | remove (p : Str)
  | rename (old new : Str)
  | stat (p : Str)
  deriving Repr, DecidableEq

/-- Model of `LocalFileSystem.Create` (src/fs.go): the os call it performs. -/
def lfsCreate (root p : Str) : OsCall := .create (lfsPath root p)

/-- Model of `LocalFileSystem.Mkdir` (src/fs.go). -/
def lfsMkdir (root p : Str) : OsCall := .mkdir (lfsPath root p)

/-- Model of `LocalFileSystem.Open` (src/fs.go). -/
def lfsOpen (root p : Str) : OsCall := .openf (lfsPath root p)

/-- Model of `LocalFileSystem.Remove` (src/fs.go). -/
def lfsRemove (root p : Str) : OsCall := .remove (lfsPath root p)

/-- Model of `LocalFileSystem.Rename` (src/fs.go). -/
def lfsRename (root old new : Str) : OsCall :=
  .rename (lfsPath root old) (lfsPath root new)

/-- Model of `LocalFileSystem.Stat` (src/fs.go). -/
def lfsStat (root p : Str) : OsCall := .stat (lfsPath root p)

/-! ## Command dispatcher (src/handler.go)

`fileSession.handle` executes one command.  Filesystem and network effects
are oracles; mutating calls are also recorded as `Act`s so that theorems can
state that an operation was not performed.  `Session.Passive(network)` and
`Session.Active(addr)` as called by the current handler are modelled from
the session source and the specification (`Modelled from the spec`, §4.C:
replace the data endpoint, closing any prior one; passive listens and the
handler then advertises the address, active dials). -/

/-- Error kinds distinguished by the dispatcher (`os.IsPermission`,
`os.IsNotExist`, anything else). -/
inductive FsErr where
  | permission
  | notExist
  | other
  deriving Repr, DecidableEq

/-- What the dispatcher reads from `os.FileInfo`: directory flag, size, and
the `ModTime().Format("20060102150405")` string. -/
structure StatInfo where
  isDir : Bool
  size : Nat
  mdtm : Str
  deriving Repr, DecidableEq

/-- Context state used by `fileSession` (src/context.go plus the
`renaming` field of the handler). -/
structure FCtx where
  user : Str
  password : Str
  dir : Str
  mode : Str
  typ : Str
  renameSrc : Str
  data : Option Nat
  epsvOnly : Bool
  ctrlNetwork : Str
  deriving Repr, DecidableEq

/-- Externally visible mutating calls of one dispatcher step. -/
inductive Act where
  | mkdir (p : Str)
  | remove (p : Str)
  | rename (old new : Str)
  | closeData (id : Nat)
  deriving Repr, DecidableEq

/-- A reply as the dispatcher emits it: code and formatted message. -/
abbrev RpE := Nat × Str

/-- Oracle for filesystem and network effects. -/
structure Oracle where
  stat : Str → Except FsErr StatInfo
  mkdirR : Str → Option FsErr
  removeR : Str → Option FsErr
  renameR : Str → Str → Option FsErr
  openR : Str → Except FsErr Nat
  createR : Str → Except FsErr Nat
  listenR : Str → Except Unit Nat
  dialR : TCPAddrM → Except Unit Nat
  hostPortR : Nat → Except Unit Str
  portR : Nat → Except Unit Nat
  copyR : Nat → Nat → Bool
  listR : Nat → Nat → Bool
  closeOkR : Nat → Bool

/-- Result of a failed filesystem call, mapped to a 550 reply with the
message chosen by the `isPermission` / `isNotExist` / other chain the
handler repeats for each verb. -/
def fsErrReply (e : FsErr) (permMsg neMsg otherMsg : Str) : RpE :=
  match e with
  | .permission => (550, permMsg)
  | .notExist => (550, neMsg)
  | .other => (550, otherMsg)

/-- Model of `Session.SetType` (src/session.go). -/
def setType (st : FCtx) (t : Str) : Except Str FCtx :=
  if t = "L8".data ∨ t = "I".data then .ok { st with typ := "I".data }
  else if t = "A".data ∨ t = "AN".data then .ok { st with typ := "A".data }
  else if t = "AT".data ∨ t = "AC".data then
    .error "ASCII print mode is not supported.".data
  else if t = "E".data ∨ t = "EN".data ∨ t = "ET".data ∨ t = "EC".data then
    .error "EBCDIC mode is not supported.".data
  else .error "Unrecognized type.".data

/-- Model of `Session.SetMode` (src/session.go). -/
def setMode (st : FCtx) (m : Str) : Except Str FCtx :=
  if m = "S".data then .ok { st with mode := "S".data }
  else if m = "B".data then .error "Block mode is not supported.".data
  else if m = "C".data then .error "Compressed mode is not supported.".data
  else .error "Unrecognized mode.".data

/-- Modelled from the spec (§4.C) and src/session.go Passive: the current
revision of `Session.Passive(network)` is not under src; it closes any
existing data channel, listens through the server, and installs the new
passive connection as the data channel (the listen error leaves the old
field in place, as in the src/session.go revision). -/
def sessPassive (o : Oracle) (st : FCtx) (nw : Str) :
    FCtx × List Act × Bool :=
  let closeActs : List Act :=
    match st.data with
    | some d => [.closeData d]
    | none => []
  match o.listenR nw with
  | .error _ => (st, closeActs, false)
  | .ok id => ({ st with data := some id }, closeActs, true)

/-- Modelled from the spec (§4.C) and src/session.go Active: the current
revision of `Session.Active(addr)` is not under src; it closes any existing
data channel, dials the given address, and installs the new active
connection on success. -/
def sessActive (o : Oracle) (st : FCtx) (addr : TCPAddrM) :
    FCtx × List Act × Bool :=
  let closeActs : List Act :=
    match st.data with
    | some d => [.closeData d]
    | none => []
  match o.dialR addr with
  | .error _ => (st, closeActs, false)
  | .ok id => ({ st with data := some id }, closeActs, true)

/-- Part of the data-verb outcomes the dispatcher distinguishes. -/
inductive HErr where
  | noData
  | fs (e : FsErr)
  deriving Repr, DecidableEq

/-- Model of `fileSession.retrieve` (src/handler.go): requires a data
channel, opens the file, sends the 150 preliminary reply, copies to the data
channel and closes it.  The context is not modified. -/
def fsRetrieve (o : Oracle) (st : FCtx) (c : Cmd) :
    List RpE × List Act × Option HErr :=
  match st.data with
  | none => ([], [], some .noData)
  | some d =>
    match o.openR (ctxPath st.dir c.msg) with
    | .error e => ([], [.closeData d], some (.fs e))
    | .ok f =>
      if o.copyR d f = false then
        ([(150, "Here comes the file.".data)], [.closeData d], some (.fs .other))
      else if o.closeOkR d = false then
        ([(150, "Here comes the file.".data)], [.closeData d], some (.fs .other))
      else ([(150, "Here comes the file.".data)], [.closeData d], none)

/-- Model of `fileSession.store` (src/handler.go): as retrieve, with Create
and the copy running from the data channel into the file. -/
def fsStore (o : Oracle) (st : FCtx) (c : Cmd) :
    List RpE × List Act × Option HErr :=
  match st.data with
  | none => ([], [], some .noData)
  | some d =>
    match o.createR (ctxPath st.dir c.msg) with
    | .error e => ([], [.closeData d], some (.fs e))
    | .ok f =>
      if o.copyR f d = false then
        ([(150, "Awaiting file data.".data)], [.closeData d], some (.fs .other))
      else if o.closeOkR f = false then
        ([(150, "Awaiting file data.".data)], [.closeData d], some (.fs .other))
      else ([(150, "Awaiting file data.".data)], [.closeData d], none)

/-- Model of `stripListFlags` (src/handler.go): decide whether the first
non-space character is a dash (or the string holds nothing else). -/
def stripLeadCheck : Str → Bool
  | [] => true
  | '-' :: _ => true
  | c :: rest => if c = ' ' then stripLeadCheck rest else false

/-- Model of `stripListFlags` (src/handler.go): drop space-separated tokens
beginning with `'-'`, but only when the first non-space character is `'-'`. -/
def stripListFlags (s : Str) : Str :=
  if stripLeadCheck s = false then s
  else strJoin " ".data ((s.splitOn ' ').filter fun t => t.head? ≠ some '-')

/-- Model of `fileSession.list` (src/handler.go): open the (flag-stripped)
path, send the 150 preliminary reply, stream the listing, close the data
channel. -/
def fsList (o : Oracle) (st : FCtx) (c : Cmd) :
    List RpE × List Act × Option HErr :=
  match st.data with
  | none => ([], [], some .noData)
  | some d =>
    match o.openR (ctxPath st.dir (stripListFlags c.msg)) with
    | .error e => ([], [.closeData d], some (.fs e))
    | .ok f =>
      if o.listR f d = false then
        ([(150, "Here comes the list.".data)], [.closeData d], some (.fs .other))
      else if o.closeOkR d = false then
        ([(150, "Here comes the list.".data)], [.closeData d], some (.fs .other))
      else ([(150, "Here comes the list.".data)], [.closeData d], none)

/-- Final reply of the LIST/NLST arm of the dispatcher. -/
def listReply (r : Option HErr) : RpE :=
  match r with
  | none => (226, "Directory send OK.".data)
  | some .noData => (425, "Use PORT or PASV first.".data)
  | some (.fs e) =>
    fsErrReply e "Insufficient permissions.".data "No such directory.".data
      "Error listing directory.".data

/-- Final reply of the RETR arm of the dispatcher. -/
def retrReply (r : Option HErr) : RpE :=
  match r with
  | none => (226, "Transfer complete.".data)
  | some .noData => (425, "Use PORT or PASV first.".data)
  | some (.fs e) =>
    fsErrReply e "Insufficient permissions.".data "No such file.".data
      "Error retrieving file.".data

/-- Final reply of the STOR arm of the dispatcher (no not-exist case in the
source chain; `isNotExist` falls through to the generic message). -/
def storReply (r : Option HErr) : RpE :=
  match r with
  | none => (226, "Transfer complete.".data)
  | some .noData => (425, "Use PORT or PASV first.".data)
  | some (.fs .permission) => (550, "Insufficient permissions.".data)
  | some (.fs _) => (550, "Error storing file.".data)

/-- The PASV success path of the dispatcher (src/handler.go): establish the
passive connection, ask it for the six-tuple address, advertise with 227
(failures reply 425, dropping the data channel when the address lookup
fails). -/
def pasvAdvertise (o : Oracle) (st : FCtx) : FCtx × List RpE × List Act :=
  match sessPassive o st "tcp4".data with
  | (st2, acts, false) =>
    (st2, [(425, "Can't open data connection.".data)], acts)
  | (st2, acts, true) =>
    match st2.data with
    | none => (st2, [(425, "Can't open data connection.".data)], acts)
    | some d =>
      match o.hostPortR d with
      | .error _ =>
        ({ st2 with data := none },
          [(425, "Can't open data connection.".data)],
          acts ++ [.closeData d])
      | .ok hp =>
        (st2, [(227, "Entering Passive Mode (".data ++ hp ++ ").".data)],
          acts)

/-- The EPSV success path of the dispatcher (src/handler.go): as PASV but on
the selected network, advertising only the port with 229. -/
def epsvAdvertise (o : Oracle) (st : FCtx) (nw : Str) :
    FCtx × List RpE × List Act :=
  match sessPassive o st nw with
  | (st2, acts, false) =>
    (st2, [(425, "Can't open data connection.".data)], acts)
  | (st2, acts, true) =>
    match st2.data with
    | none => (st2, [(425, "Can't open data connection.".data)], acts)
    | some d =>
      match o.portR d with
      | .error _ =>
        ({ st2 with data := none },
          [(425, "Can't open data connection.".data)],
          acts ++ [.closeData d])
      | .ok p =>
        (st2, [(229, "Entering Extended Passive Mode (|||".data
          ++ decChars p ++ "|)".data)], acts)

/-- The PORT/EPRT success path of the dispatcher (src/handler.go): dial the
parsed address; a dial failure replies 550, success replies with the
verb-specific code. -/
def activeConnect (o : Oracle) (st : FCtx) (addr : TCPAddrM) (okR : RpE) :
    FCtx × List RpE × List Act :=
  match sessActive o st addr with
  | (st2, acts, false) => (st2, [(550, "Failed to connect.".data)], acts)
  | (st2, acts, true) => (st2, [okR], acts)

/-- Model of `fileSession.handle` (src/handler.go): one command dispatched
through the verb switch. -/
def fileHandle (o : Oracle) (st : FCtx) (c : Cmd) :
    FCtx × List RpE × List Act :=
  if c.cmd = "USER".data then (st, [(530, "Cannot change user.".data)], [])
  else if c.cmd = "PASS".data then (st, [(230, "Already logged in.".data)], [])
  else if c.cmd = "SYST".data then (st, [(215, "UNIX Type: L8".data)], [])
  else if c.cmd = "TYPE".data then
    match setType st c.msg with
    | .error e => (st, [(504, e)], [])
    | .ok st2 => (st2, [(200, "Type switched successfully.".data)], [])
  else if c.cmd = "MODE".data then
    match setMode st c.msg with
    | .error e => (st, [(504, e)], [])
    | .ok st2 => (st2, [(200, "Mode switched successfully.".data)], [])
  else if c.cmd = "PWD".data then (st, [(200, ctxPath st.dir [])], [])
  else if c.cmd = "CWD".data then
    if c.msg = [] then (st, [(550, "Failed to change directory.".data)], [])
    else
      match o.stat (ctxPath st.dir c.msg) with
      | .error e =>
        (st, [fsErrReply e "Insufficient permissions.".data
          "No such directory.".data "Failed to change directory.".data], [])
      | .ok i =>
        if i.isDir = false then
          (st, [(550, "Failed to change directory.".data)], [])
        else ({ st with dir := ctxPath st.dir c.msg },
          [(250, "Directory successfully changed.".data)], [])
  else if c.cmd = "CDUP".data then
    match o.stat (ctxPath st.dir "..".data) with
    | .error e =>
      (st, [fsErrReply e "Insufficient permissions.".data
        "No such directory.".data "Failed to change directory.".data], [])
    | .ok i =>
      if i.isDir = false then
        (st, [(550, "Failed to change directory.".data)], [])
      else ({ st with dir := ctxPath st.dir "..".data },
        [(250, "Directory successfully changed.".data)], [])
  else if c.cmd = "MKD".data then
    match o.mkdirR (ctxPath st.dir c.msg) with
    | some _ => (st, [(550, "Failed to create directory.".data)],
        [.mkdir (ctxPath st.dir c.msg)])
    | none => (st, [(257, '"' :: c.msg ++ "\" created.".data)],
        [.mkdir (ctxPath st.dir c.msg)])
  else if c.cmd = "SIZE".data then
    match o.stat (ctxPath st.dir c.msg) with
    | .error e =>
      (st, [fsErrReply e "Insufficient permissions.".data
        "No such file.".data "Could not get size.".data], [])
    | .ok i =>
      if i.isDir then (st, [(550, "Path specifies a directory.".data)], [])
      else (st, [(213, decChars i.size)], [])
  else if c.cmd = "MDTM".data then
    match o.stat (ctxPath st.dir c.msg) with
    | .error e =>
      (st, [fsErrReply e "Insufficient permissions.".data
        "No such file or directory.".data "Could not get size.".data], [])
    | .ok i =>
      if i.isDir then (st, [(550, "Could not get size.".data)], [])
      else (st, [(213, i.mdtm)], [])
  else if c.cmd = "DELE".data ∨ c.cmd = "RMD".data then
    if c.msg = [] then (st, [(501, "A file name is required.".data)], [])
    else
      match o.removeR (ctxPath st.dir c.msg) with
      | some e =>
        (st, [fsErrReply e "Insufficient permissions.".data
          "No such file.".data "Could not delete file.".data],
          [.remove (ctxPath st.dir c.msg)])
      | none => (st, [(250, "Successfully deleted file.".data)],
          [.remove (ctxPath st.dir c.msg)])
  else if c.cmd = "RNFR".data then
    if c.msg = [] then (st, [(501, "A file name is required.".data)], [])
    else ({ st with renameSrc := ctxPath st.dir c.msg },
      [(350, "Call RNTO to specify destination.".data)], [])
  else if c.cmd = "RNTO".data then
    if c.msg = [] then (st, [(501, "A file name is required.".data)], [])
    else if st.renameSrc = [] then (st, [(503, "Call RNFR first.".data)], [])
    else
      match o.renameR st.renameSrc (ctxPath st.dir c.msg) with
      | some e =>
        (st, [fsErrReply e "Insufficient permissions.".data
          "No such file.".data "Could not rename file.".data],
          [.rename st.renameSrc (ctxPath st.dir c.msg)])
      | none => (st, [(250, "Successfully renamed file.".data)],
          [.rename st.renameSrc (ctxPath st.dir c.msg)])
  else if c.cmd = "PASV".data then
    if st.epsvOnly then (st, [(550, "PASV is disallowed.".data)], [])
    else pasvAdvertise o st
  else if c.cmd = "EPSV".data then
    if c.msg = "ALL".data then
      ({ st with epsvOnly := true }, [(200, "EPSV ALL ok.".data)], [])
    else
      let nw : Option Str :=
        if c.msg = "1".data then some "tcp4".data
        else if c.msg = "2".data then some "tcp6".data
        else if c.msg = [] then some st.ctrlNetwork
        else none
      match nw with
      | none => (st, [(522, "Unsupported protocol.".data)], [])
      | some nw => epsvAdvertise o st nw
  else if c.cmd = "PORT".data then
    if st.epsvOnly then (st, [(550, "PORT is disallowed.".data)], [])
    else
      match parsePORT c.msg with
      | none => (st, [(501, "Invalid syntax.".data)], [])
      | some addr => activeConnect o st addr (200, "OK".data)
  else if c.cmd = "EPRT".data then
    if st.epsvOnly then (st, [(550, "EPRT is disallowed.".data)], [])
    else
      match parseEPRT c.msg with
      | none => (st, [(501, "Invalid syntax.".data)], [])
      | some addr => activeConnect o st addr (227, "OK".data)
  else if c.cmd = "LIST".data ∨ c.cmd = "NLST".data then
    match fsList o st c with
    | (pre, acts, r) => (st, pre ++ [listReply r], acts)
  else if c.cmd = "RETR".data then
    match fsRetrieve o st c with
    | (pre, acts, r) => (st, pre ++ [retrReply r], acts)
  else if c.cmd = "STOR".data then
    match fsStore o st c with
    | (pre, acts, r) => (st, pre ++ [storReply r], acts)
  else if c.cmd = "NOOP".data then (st, [(200, "OK.".data)], [])
  else if c.cmd = "QUIT".data then (st, [(211, "Goodbye.".data)], [])
  else (st, [(502, "Not implemented.".data)], [])

/-- One iteration of `fileSession.Handle` (src/handler.go): dispatch the
command; when it was QUIT the loop returns before the reset, otherwise any
command other than RNFR clears the rename source. -/
def loopStep (o : Oracle) (st : FCtx) (c : Cmd) :
    FCtx × List RpE × List Act :=
  match fileHandle o st c with
  | (st2, rps, acts) =>
    if c.cmd ≠ "QUIT".data ∧ c.cmd ≠ "RNFR".data then
      ({ st2 with renameSrc := [] }, rps, acts)
    else (st2, rps, acts)

/-- The command loop of `fileSession.Handle`, recorded as a trace of
`(state before, command, replies, state after)`; the loop stops after
QUIT. -/
def traceRun (o : Oracle) (st : FCtx) : List Cmd →
    List (FCtx × Cmd × List RpE × FCtx)
  | [] => []
  | c :: cs =>
    match loopStep o st c with
    | (st2, rps, _) =>
      (st, c, rps, st2) ::
        (if c.cmd = "QUIT".data then [] else traceRun o st2 cs)

/-- A concrete oracle for evaluating the dispatcher at specific inputs. -/
def oracle0 : Oracle where
  stat := fun _ => .error .other
  mkdirR := fun _ => none
  removeR := fun _ => none
  renameR := fun _ _ => none
  openR := fun _ => .error .other
  createR := fun _ => .error .other
  listenR := fun _ => .error ()
  dialR := fun _ => .error ()
  hostPortR := fun _ => .error ()
  portR := fun _ => .error ()
  copyR := fun _ _ => true
  listR := fun _ _ => true
  closeOkR := fun _ => true

/-- A concrete dispatcher context for evaluating at specific inputs. -/
def fctx0 : FCtx where
  user := []
  password := []
  dir := "/".data
  mode := "S".data
  typ := "I".data
  renameSrc := []
  data := none
  epsvOnly := false
  ctrlNetwork := "tcp4".data

/-! ## Theorems -/

theorem digitsAux_eq_digits (b : Nat) (hb : 1 < b) :
    ∀ f n, n ≤ f → digitsAux b f n = Nat.digits b n := by
  intro f
  induction f with
  | zero =>
    intro n hn
    interval_cases n
    simp [digitsAux]
  | succ f ih =>
    intro n hn
    match n with
    | 0 => simp [digitsAux]
    | n + 1 =>
      rw [digitsAux, Nat.digits_def' hb (Nat.succ_pos n), ih]
      have hdiv : (n + 1) / b < n + 1 := Nat.div_lt_self (Nat.succ_pos n) hb
      omega

theorem digitsOf_eq_digits (b n : Nat) (hb : 1 < b) :
    digitsOf b n = Nat.digits b n :=
  digitsAux_eq_digits b hb n n (Nat.le_refl n)

theorem lines_ne_nil (r : ReplyM) : r.lines ≠ [] :=
  List.splitOnP_ne_nil _ _

theorem encodeTail_eq (code : Nat) (l : Str) (ls : List Str) :
    encodeTail code (l :: ls) =
      ((l :: ls).dropLast.map fun m => ' ' :: m)
        ++ [fmtCode code ++ (' ' :: (l :: ls).getLastD [])] := by
  induction ls generalizing l with
  | nil => simp [encodeTail]
  | cons l2 ls ih => simp [encodeTail, ih l2]

theorem strJoin_eq_intercalate (x : Char) (ls : List Str) :
    strJoin [x] ls = [x].intercalate ls := by
  induction ls with
  | nil => rfl
  | cons a t ih =>
    cases t with
    | nil => simp [strJoin, List.intercalate]
    | cons b t2 =>
      simp only [strJoin, ih]
      simp [List.intercalate, List.intersperse]

theorem modifyHead_append (f : Str → Str) (l1 l2 : List Str) (h : l1 ≠ []) :
    (l1 ++ l2).modifyHead f = l1.modifyHead f ++ l2 := by
  cases l1 with
  | nil => exact absurd rfl h
  | cons a t => simp

theorem splitOnP_append_sep (p : Char → Bool) (sep : Char) (hsep : p sep = true)
    (a b : Str) :
    (a ++ sep :: b).splitOnP p = a.splitOnP p ++ b.splitOnP p := by
  induction a with
  | nil => simp [List.splitOnP_cons, hsep, List.splitOnP_nil]
  | cons c a ih =>
    simp only [List.cons_append, List.splitOnP_cons, ih]
    by_cases hc : p c = true
    · simp [hc]
    · simp only [hc, if_false, Bool.false_eq_true]
      exact modifyHead_append _ _ _ (List.splitOnP_ne_nil _ _)

theorem splitOn_append_sep (sep : Char) (a b : Str) :
    (a ++ sep :: b).splitOn sep = a.splitOn sep ++ b.splitOn sep := by
  simpa [List.splitOn] using
    splitOnP_append_sep (· == sep) sep (by simp) a b

theorem splitOnP_no_sep (p : Char → Bool) (xs : Str) :
    ∀ l ∈ xs.splitOnP p, ∀ c ∈ l, p c = false := by
  induction xs with
  | nil => simp [List.splitOnP_nil]
  | cons x xs ih =>
    simp only [List.splitOnP_cons]
    by_cases hx : p x = true
    · simp only [hx, if_true]
      intro l hl
      rcases List.mem_cons.mp hl with h | h
      · subst h; simp
      · exact ih l h
    · simp only [hx, if_false, Bool.false_eq_true]
      match h : xs.splitOnP p with
      | [] => exact absurd h (List.splitOnP_ne_nil _ _)
      | hd :: tl =>
        intro l hl
        rcases List.mem_cons.mp hl with h1 | h1
        · subst h1
          intro c hc
          rcases List.mem_cons.mp hc with h2 | h2
          · subst h2; simpa using hx
          · exact ih hd (by rw [h]; exact List.mem_cons_self _ _) c h2
        · exact ih l (by rw [h]; exact List.mem_cons_of_mem _ h1)

theorem splitOn_no_sep (sep : Char) (xs : Str) :
    ∀ l ∈ xs.splitOn sep, sep ∉ l := by
  intro l hl hmem
  have := splitOnP_no_sep (· == sep) xs l (by simpa [List.splitOn] using hl) sep hmem
  simp at this

theorem cleanRun_skip (r : Bool) (acc : List Str) (s : Str) (rest : List Str)
    (h : s = [] ∨ s = ".".data) :
    cleanRun r acc (s :: rest) = cleanRun r acc rest := by
  simp only [cleanRun]; rw [if_pos h]

theorem cleanRun_push (r : Bool) (acc : List Str) (s : Str) (rest : List Str)
    (h1 : ¬(s = [] ∨ s = ".".data)) (h2 : s ≠ "..".data) :
    cleanRun r acc (s :: rest) = cleanRun r (s :: acc) rest := by
  simp only [cleanRun]; rw [if_neg h1, if_neg h2]

theorem cleanRun_dd_nil (r : Bool) (s : Str) (rest : List Str)
    (h1 : ¬(s = [] ∨ s = ".".data)) (h2 : s = "..".data) :
    cleanRun r [] (s :: rest)
      = cleanRun r (if r then [] else ["..".data]) rest := by
  simp only [cleanRun]; rw [if_neg h1, if_pos h2]
  cases r <;> simp

theorem cleanRun_dd_cons (r : Bool) (t : Str) (ts : List Str) (s : Str)
    (rest : List Str) (h1 : ¬(s = [] ∨ s = ".".data)) (h2 : s = "..".data) :
    cleanRun r (t :: ts) (s :: rest)
      = cleanRun r
          (if r then ts else if t = "..".data then "..".data :: t :: ts else ts)
          rest := by
  simp only [cleanRun]; rw [if_neg h1, if_pos h2]
  split_ifs <;> rfl

theorem cleanRun_append (r : Bool) (s1 s2 : List Str) (acc : List Str) :
    cleanRun r acc (s1 ++ s2) = cleanRun r (cleanRun r acc s1) s2 := by
  induction s1 generalizing acc with
  | nil => rfl
  | cons s s1 ih =>
    rw [List.cons_append]
    by_cases h1 : s = [] ∨ s = ".".data
    · rw [cleanRun_skip r acc s _ h1, cleanRun_skip r acc s _ h1, ih]
    · by_cases h2 : s = "..".data
      · cases acc with
        | nil =>
          rw [cleanRun_dd_nil r s _ h1 h2, cleanRun_dd_nil r s _ h1 h2, ih]
        | cons t ts =>
          rw [cleanRun_dd_cons r t ts s _ h1 h2,
            cleanRun_dd_cons r t ts s _ h1 h2, ih]
      · rw [cleanRun_push r acc s _ h1 h2, cleanRun_push r acc s _ h1 h2, ih]

/-- A segment is pushed by `cleanRun` exactly when it is neither empty nor
`"."` (given it is not `".."`). -/
def isNormalSeg (s : Str) : Bool := ¬(s = [] ∨ s = ".".data)

theorem cleanRun_pushes (r : Bool) (segs : List Str) (acc : List Str)
    (h : ∀ s ∈ segs, s ≠ "..".data) :
    cleanRun r acc segs = (segs.filter isNormalSeg).reverse ++ acc := by
  induction segs generalizing acc with
  | nil => simp [cleanRun]
  | cons s segs ih =>
    have hs : s ≠ "..".data := h s (List.mem_cons_self _ _)
    have hrest : ∀ t ∈ segs, t ≠ "..".data := fun t ht => h t (List.mem_cons_of_mem _ ht)
    by_cases h1 : s = [] ∨ s = ".".data
    · rw [cleanRun_skip r acc s _ h1, ih _ hrest]
      have : isNormalSeg s = false := by simp [isNormalSeg, h1]
      simp [List.filter_cons, this]
    · rw [cleanRun_push r acc s _ h1 hs, ih _ hrest]
      have : isNormalSeg s = true := by simp [isNormalSeg, h1]
      simp [List.filter_cons, this]

/-- Invariant of the rooted clean stack: every stacked segment is a plain name
(nonempty, not `"."`, not `".."`, no separator). -/
def goodSeg (s : Str) : Prop :=
  s ≠ [] ∧ s ≠ ".".data ∧ s ≠ "..".data ∧ '/' ∉ s

theorem cleanRun_rooted_good (segs : List Str) (acc : List Str)
    (hsegs : ∀ s ∈ segs, '/' ∉ s) (hacc : ∀ a ∈ acc, goodSeg a) :
    ∀ a ∈ cleanRun true acc segs, goodSeg a := by
  induction segs generalizing acc with
  | nil => simpa [cleanRun] using hacc
  | cons s segs ih =>
    have hs : '/' ∉ s := hsegs s (List.mem_cons_self _ _)
    have hrest : ∀ t ∈ segs, '/' ∉ t := fun t ht => hsegs t (List.mem_cons_of_mem _ ht)
    by_cases h1 : s = [] ∨ s = ".".data
    · rw [cleanRun_skip true acc s _ h1]
      exact ih _ hrest hacc
    · by_cases h2 : s = "..".data
      · cases acc with
        | nil =>
          rw [cleanRun_dd_nil true s _ h1 h2]
          simpa using ih _ hrest (by simp)
        | cons t ts =>
          rw [cleanRun_dd_cons true t ts s _ h1 h2]
          simp only [if_true]
          exact ih _ hrest fun a ha => hacc a (List.mem_cons_of_mem _ ha)
      · rw [cleanRun_push true acc s _ h1 h2]
        refine ih _ hrest fun a ha => ?_
        rcases List.mem_cons.mp ha with h3 | h3
        · subst h3
          push_neg at h1
          exact ⟨h1.1, h1.2, h2, hs⟩
        · exact hacc a h3

theorem head_of_strJoin_slash (rest : List Str) :
    (strJoin "/".data (['/'] :: rest)).head? = some '/' := by
  cases rest <;> simp [strJoin]

theorem clean_rooted_eq (s : Str) (h : s.head? = some '/') :
    clean s = '/' :: strJoin "/".data (cleanRun true [] (s.splitOn '/')).reverse := by
  have hne : s ≠ [] := by cases s <;> simp_all
  simp only [clean, hne, if_false, h]
  simp

theorem goJoin_slash_spec (l : List Str) :
    ∃ acc : List Str, (∀ a ∈ acc, goodSeg a)
      ∧ goJoin ("/".data :: l) = '/' :: strJoin "/".data acc.reverse := by
  have h1 : goJoin ("/".data :: l)
      = clean (strJoin "/".data ("/".data :: l.filter fun e => e ≠ [])) := by
    simp [goJoin]
  rw [h1, clean_rooted_eq _ (head_of_strJoin_slash _)]
  exact ⟨_, cleanRun_rooted_good _ _ (splitOn_no_sep _ _) (by simp), rfl⟩

theorem goJoin_slash_head (l : List Str) :
    (goJoin ("/".data :: l)).head? = some '/' := by
  obtain ⟨acc, -, hq⟩ := goJoin_slash_spec l
  rw [hq]; rfl

/-- C9: `Context.Path` (src/context.go) always yields a path beginning with
`'/'`, is idempotent, returns absolute paths unchanged, and resolves relative
paths by joining `"/"`, the working directory and the path. -/
theorem c9_ctx_path_abs_idem (dir p : Str) :
    (ctxPath dir p).head? = some '/'
      ∧ ctxPath dir (ctxPath dir p) = ctxPath dir p
      ∧ (isAbs p = true → ctxPath dir p = p)
      ∧ (isAbs p = false → ctxPath dir p = goJoin ["/".data, dir, p]) := by
  have hhead : (ctxPath dir p).head? = some '/' := by
    unfold ctxPath
    by_cases h : isAbs p
    · rw [if_pos h]
      simpa [isAbs] using h
    · rw [if_neg h]
      exact goJoin_slash_head [dir, p]
  have habs3 : ∀ q, isAbs q = true → ctxPath dir q = q := fun q h => by
    simp [ctxPath, h]
  have habs : isAbs (ctxPath dir p) = true := by simp [isAbs, hhead]
  exact ⟨hhead, habs3 _ habs, fun h => by simp [ctxPath, h],
    fun h => by simp [ctxPath, h]⟩

/-- C9 witness: the absolute-path clause at a concrete input. -/
theorem c9_ctx_path_witness : ctxPath "/w".data "/a".data = "/a".data :=
  (c9_ctx_path_abs_idem "/w".data "/a".data).2.2.1 (by decide)

/-- C10: `LocalFileSystem.path` (src/fs.go) first resolves the client path
under `"/"`; the result is absolute and free of `".."` segments, and the final
path is the cleaned `Root` (or `"."`) extended by exactly those traversal-free
segments, so every operation stays lexically confined under `Root`.  All six
filesystem methods forward to this resolved path. -/
theorem c10_lfs_confined (root p : Str) :
    (∀ s ∈ (goJoin ["/".data, p]).splitOn '/', s ≠ "..".data)
      ∧ isAbs (goJoin ["/".data, p]) = true
      ∧ (root ≠ [] → lfsPath root p = clean (root ++ '/' :: goJoin ["/".data, p]))
      ∧ (root = [] → lfsPath root p = clean ('.' :: '/' :: goJoin ["/".data, p]))
      ∧ (∀ (r : Bool) (base : Str),
          cleanRun r [] ((base ++ '/' :: goJoin ["/".data, p]).splitOn '/')
            = (((goJoin ["/".data, p]).splitOn '/').filter isNormalSeg).reverse
                ++ cleanRun r [] (base.splitOn '/'))
      ∧ lfsCreate root p = OsCall.create (lfsPath root p)
      ∧ lfsOpen root p = OsCall.openf (lfsPath root p)
      ∧ lfsStat root p = OsCall.stat (lfsPath root p)
      ∧ lfsMkdir root p = OsCall.mkdir (lfsPath root p)
      ∧ lfsRemove root p = OsCall.remove (lfsPath root p)
      ∧ (∀ old nw, lfsRename root old nw
          = OsCall.rename (lfsPath root old) (lfsPath root nw)) := by
  obtain ⟨acc, hgood, hq⟩ := goJoin_slash_spec [p]
  have hqne : goJoin ["/".data, p] ≠ [] := by rw [hq]; exact List.cons_ne_nil _ _
  have hsplit : (goJoin ["/".data, p]).splitOn '/'
      = [] :: (strJoin "/".data acc.reverse).splitOn '/' := by
    rw [hq]
    simpa using splitOn_append_sep '/' [] (strJoin "/".data acc.reverse)
  have hnodd : ∀ s ∈ (goJoin ["/".data, p]).splitOn '/', s ≠ "..".data := by
    rw [hsplit]
    intro s hs
    rcases List.mem_cons.mp hs with h | h
    · subst h; simp
    · match hrev : acc.reverse with
      | [] =>
        rw [hrev] at h
        simp only [strJoin] at h
        rcases (by simpa [List.splitOn] using h : s ∈ ([[]] : List Str)) with h2
        simp at h2
        subst h2; simp
      | a :: rest =>
        rw [hrev, strJoin_eq_intercalate,
          List.splitOn_intercalate (a :: rest) '/' ?hx (by simp)] at h
        case hx =>
          intro l hl
          have : l ∈ acc := by
            rw [← List.mem_reverse, hrev]; exact hl
          exact (hgood l this).2.2.2
        have : s ∈ acc := by
          rw [← List.mem_reverse, hrev]; exact h
        exact (hgood s this).2.2.1
  have hjoin2 : ∀ a b : Str, a ≠ [] → b ≠ [] → goJoin [a, b] = clean (a ++ '/' :: b) := by
    intro a b ha hb
    have h1 : ([a, b].filter fun e => e ≠ []) = [a, b] := by simp [ha, hb]
    have h2 : strJoin "/".data [a, b] = a ++ '/' :: b := by simp [strJoin]
    simp only [goJoin, h1, h2]
    rw [if_neg (by simp)]
  refine ⟨hnodd, by rw [hq]; rfl, ?_, ?_, ?_, rfl, rfl, rfl, rfl, rfl, fun _ _ => rfl⟩
  · intro hroot
    simp only [lfsPath]
    rw [if_neg hroot, hjoin2 root _ hroot hqne]
  · intro hroot
    simp only [lfsPath]
    rw [if_pos hroot, hjoin2 ".".data _ (by simp) hqne]
    rfl
  · intro r base
    rw [splitOn_append_sep, cleanRun_append, cleanRun_pushes r _ _ hnodd]

/-- C10 witness: a traversal attempt resolved under a concrete root. -/
theorem c10_lfs_confined_witness :
    lfsPath "/r".data "../x".data
      = clean ("/r".data ++ '/' :: goJoin ["/".data, "../x".data]) :=
  (c10_lfs_confined "/r".data "../x".data).2.2.1 (by decide)

/-- C3 counterexample: on the three-line message `"a\nb\nc"` with code 250,
`Reply.Encode` of src/channel.go emits the middle line as `" b"`, not
`"250-b"`, so the claimed all-`"<code>-"` shape does not hold. -/
theorem c3_encode_counterexample :
    ReplyM.encode ⟨250, "a\nb\nc".data⟩
        = ["250-a".data, " b".data, "250 c".data]
      ∧ specEncodeAllDash ⟨250, "a\nb\nc".data⟩
        = ["250-a".data, "250-b".data, "250 c".data]
      ∧ ReplyM.encode ⟨250, "a\nb\nc".data⟩
        ≠ specEncodeAllDash ⟨250, "a\nb\nc".data⟩ := by
  refine ⟨by decide, by decide, by decide⟩

/-- C3 (amended): encoding a Reply whose message has n ≥ 2 lines emits the
first line with prefix `"<code>-"`, every middle line with a single-space
prefix, and the last line with prefix `"<code> "`; a one-line message is
emitted as a single `"<code> "` line. -/
theorem c3_encode_shape (r : ReplyM) : r.encode = specEncodeAmended r := by
  have hne := lines_ne_nil r
  unfold ReplyM.encode specEncodeAmended
  match h : r.lines with
  | [] => exact absurd h hne
  | [l] => simp
  | l :: l2 :: ls => simp [encodeTail_eq, List.getLastD_cons]

/-- C4: the ASCII-mode write of src/conn.go inserts a CR before exactly those
LF bytes not immediately preceded by a CR in the cumulative input stream (the
`cr` flag coincides with "previous input byte was CR"); writing `"a\nb\r\nc"`
in type `"A"` yields `"a\r\nb\r\nc"`, and type `"I"` passes bytes through
unchanged. -/
theorem c4_ascii_write :
    (∀ (b : Str) (cr : Bool) (prev : Option Char),
        cr = decide (prev = some '\r') →
        writeASCII cr b = ((asciiRef prev b).1, decide ((asciiRef prev b).2 = some '\r')))
      ∧ connWrite "A".data false "a\nb\r\nc".data = ("a\r\nb\r\nc".data, false)
      ∧ (∀ cr b, connWrite "I".data cr b = (b, cr)) := by
  refine ⟨?_, by decide, fun cr b => by simp [connWrite]⟩
  · intro b
    induction b with
    | nil => intro cr prev h; simp [writeASCII, asciiRef, h]
    | cons c rest ih =>
      intro cr prev h
      by_cases hc : c = '\n' ∧ prev ≠ some '\r'
      · have hcr : cr = false := by simp [h, hc.2]
        simp [writeASCII, asciiRef, hcr, hc.1, hc.2,
          ih false (some '\n') (by decide)]
      · have : ¬(!cr && c = '\n') = true := by
          subst h
          rcases Decidable.not_and_iff_or_not.mp hc with h1 | h1 <;> simp_all
        simp only [writeASCII, asciiRef, this, if_neg]
        have := ih (decide (c = '\r')) (some c) (by simp)
        by_cases hln : c = '\n' && decide ¬prev = some '\r'
        · exact absurd (by simpa using hln) hc
        · simp only [Bool.not_eq_true] at hln
          simp [this, hln, hc]

/-- C4 witness: the general correspondence instantiated at a concrete write. -/
theorem c4_ascii_write_witness :
    writeASCII false "x\n".data
      = ((asciiRef none "x\n".data).1, decide ((asciiRef none "x\n".data).2 = some '\r')) :=
  c4_ascii_write.1 "x\n".data false none (by decide)

/-- C1: within a session, `Session.Command` returns the pending command
unchanged (reading nothing and emitting nothing) while one is pending; a
reply with code < 200 leaves the command pending so the handler can reply
again; a reply with code ≥ 200 clears the pending command (closing the
session afterwards when that command was QUIT). -/
theorem c1_command_reply_cycle :
    (∀ (wireOK : Bool) (next : Cmd) (s : SessionSt) (c : Cmd),
        s.connOpen = true → s.greeted = true → s.cmd = some c →
        scommand wireOK next s = (some c, ⟨s, [], none⟩))
      ∧ (∀ (code : Nat) (msg : Str) (s : SessionSt) (c : Cmd),
          code < 200 → s.connOpen = true → s.cmd = some c →
          sreply true code msg s = ⟨s, [.reply code msg], none⟩)
      ∧ (∀ (code : Nat) (msg : Str) (s : SessionSt) (c : Cmd),
          200 ≤ code → s.connOpen = true → s.greeted = true → s.cmd = some c →
          (sreply true code msg s).st.cmd = none
            ∧ (sreply true code msg s).err = none
            ∧ (sreply true code msg s).evs.head? = some (.reply code msg)) := by
  refine ⟨?_, ?_, ?_⟩
  · intro wireOK next s c h1 h2 h3
    simp [scommand, h1, h2, h3]
  · intro code msg s c hcode h1 h3
    simp [sreply, h1, h3, hcode]
  · intro code msg s c hcode h1 h2 h3
    have hnl : ¬code < 200 := by omega
    obtain ⟨o, cm, g⟩ := s
    simp only at h1 h2 h3
    subst h1 h2 h3
    by_cases hq : c.cmd = "QUIT".data
    · simp [sreply, sclose, hnl, hq]
    · simp [sreply, hnl, hq]

/-- C1 witness: a pending command survives a preliminary reply and is cleared
by a final one, at a concrete state. -/
theorem c1_command_reply_cycle_witness :
    scommand true ⟨"NOOP".data, []⟩ ⟨true, some ⟨"STOR".data, "f".data⟩, true⟩
        = (some ⟨"STOR".data, "f".data⟩, ⟨⟨true, some ⟨"STOR".data, "f".data⟩, true⟩, [], none⟩)
      ∧ sreply true 150 "ok".data ⟨true, some ⟨"STOR".data, "f".data⟩, true⟩
        = ⟨⟨true, some ⟨"STOR".data, "f".data⟩, true⟩, [.reply 150 "ok".data], none⟩ :=
  ⟨c1_command_reply_cycle.1 true ⟨"NOOP".data, []⟩ _ _ rfl rfl rfl,
    c1_command_reply_cycle.2.1 150 "ok".data _ ⟨"STOR".data, "f".data⟩
      (by omega) rfl rfl⟩

/-- C8: `Session.Close` on a session with a pending command or an unsent
greeting emits a 421 goodbye and then closes the connection; the goodbye is
best effort (a wire failure still closes the connection without error); a
greeted session with no pending command closes silently; a second `Close`
returns the session-closed error and writes nothing.  When the pending
command is QUIT the goodbye reply itself already closes the connection and
the subsequent close is a nil dereference, but the 421 and the close still
happen first. -/
theorem c8_close_goodbye :
    (∀ (s : SessionSt) (c : Cmd),
        s.connOpen = true → s.greeted = true → s.cmd = some c →
        c.cmd ≠ "QUIT".data →
        sclose true s
          = ⟨⟨false, none, true⟩, [.reply 421 goodbyeMsg, .connClose], none⟩)
      ∧ (∀ s : SessionSt, s.connOpen = true → s.greeted = false → s.cmd = none →
          sclose true s
            = ⟨⟨false, none, true⟩, [.reply 421 goodbyeMsg, .connClose], none⟩)
      ∧ (∀ s : SessionSt, s.connOpen = true → s.cmd ≠ none →
          sclose false s = ⟨{ s with connOpen := false }, [.connClose], none⟩)
      ∧ (∀ s : SessionSt, s.connOpen = true → s.greeted = true → s.cmd = none →
          sclose true s = ⟨{ s with connOpen := false }, [.connClose], none⟩)
      ∧ (∀ (s : SessionSt) (wireOK : Bool), s.connOpen = false →
          sclose wireOK s = ⟨s, [], some .closed⟩)
      ∧ (∀ (s : SessionSt) (c : Cmd),
          s.connOpen = true → s.greeted = true → s.cmd = some c →
          c.cmd = "QUIT".data →
          (sclose true s).evs = [.reply 421 goodbyeMsg, .connClose]
            ∧ (sclose true s).st.connOpen = false
            ∧ (sclose true s).err = some .panicked) := by
  refine ⟨?_, ?_, ?_, ?_, ?_, ?_⟩
  · intro s c h1 h2 h3 hq
    obtain ⟨o, cm, g⟩ := s
    simp at h1 h2 h3
    subst h1 h2 h3
    simp [sclose, sreply, hq]
  · intro s h1 h2 h3
    obtain ⟨o, cm, g⟩ := s
    simp at h1 h2 h3
    subst h1 h2 h3
    simp [sclose, sreply]
  · intro s h1 h2
    simp [sclose, sreply, h1, h2]
  · intro s h1 h2 h3
    simp [sclose, h1, h2, h3]
  · intro s wireOK h1
    simp [sclose, h1]
  · intro s c h1 h2 h3 hq
    obtain ⟨o, cm, g⟩ := s
    simp at h1 h2 h3
    subst h1 h2 h3
    simp [sclose, sreply, hq]

/-- C7: in the authentication sub-protocol of src/auth.go, a PASS with no
recorded user replies 503; an accepted PASS records the password and replies
230, completing login; a rejected PASS clears the recorded user and replies
430; an authorizer error propagates to the caller with no reply emitted. -/
theorem c7_auth_pass (authz : Option (Str → Str → Bool × Bool))
    (ctx : AuthCtx) (st : SessionSt) (c : Cmd)
    (h1 : st.connOpen = true) (h2 : st.greeted = true) (h3 : st.cmd = some c)
    (hcmd : c.cmd = "PASS".data) :
    (ctx.user = [] →
        authHandle authz ctx st c
          = ⟨ctx, { st with cmd := none },
              [.reply 503 "Log in with USER first.".data], none, false⟩)
      ∧ (ctx.user ≠ [] → authAuthorize authz ctx.user c.msg = (true, false) →
          authHandle authz ctx st c
            = ⟨{ ctx with password := c.msg }, { st with cmd := none },
                [.reply 230 "Login successful.".data], none, false⟩
          ∧ authDone { ctx with password := c.msg } c = true)
      ∧ (ctx.user ≠ [] → authAuthorize authz ctx.user c.msg = (false, false) →
          authHandle authz ctx st c
            = ⟨{ ctx with user := [] }, { st with cmd := none },
                [.reply 430 "Invalid user name or password.".data], none, false⟩)
      ∧ (∀ ok, ctx.user ≠ [] → authAuthorize authz ctx.user c.msg = (ok, true) →
          authHandle authz ctx st c
            = ⟨{ ctx with user := [] }, st, [], none, true⟩) := by
  obtain ⟨o, cm, g⟩ := st
  obtain ⟨cc, cmsg⟩ := c
  simp only at h1 h2 h3 hcmd
  subst h1 h2 h3 hcmd
  refine ⟨?_, ?_, ?_, ?_⟩
  · intro hu
    simp +decide [authHandle, sreply, hu]
  · intro hu hauth
    constructor
    · simp +decide [authHandle, sreply, hu, hauth]
    · simp [authDone, hu]
  · intro hu hauth
    simp +decide [authHandle, sreply, hu, hauth]
  · intro ok hu hauth
    simp +decide [authHandle, sreply, hu, hauth]

/-- C7 witness: anonymous login accepted at a concrete state. -/
theorem c7_auth_pass_witness :
    authHandle none ⟨"anonymous".data, []⟩ ⟨true, some ⟨"PASS".data, "x".data⟩, true⟩
        ⟨"PASS".data, "x".data⟩
      = ⟨⟨"anonymous".data, "x".data⟩, ⟨true, none, true⟩,
          [.reply 230 "Login successful.".data], none, false⟩ := by
  have h := (c7_auth_pass none ⟨"anonymous".data, []⟩
      ⟨true, some ⟨"PASS".data, "x".data⟩, true⟩ ⟨"PASS".data, "x".data⟩
      rfl rfl rfl rfl).2.1 (by decide) (by decide)
  exact h.1

theorem sessPassive_fst_epsv (o : Oracle) (st : FCtx) (nw : Str) :
    (sessPassive o st nw).1.epsvOnly = st.epsvOnly := by
  unfold sessPassive
  cases o.listenR nw <;> simp

theorem sessPassive_fst_renameSrc (o : Oracle) (st : FCtx) (nw : Str) :
    (sessPassive o st nw).1.renameSrc = st.renameSrc := by
  unfold sessPassive
  cases o.listenR nw <;> simp

theorem sessActive_fst_epsv (o : Oracle) (st : FCtx) (a : TCPAddrM) :
    (sessActive o st a).1.epsvOnly = st.epsvOnly := by
  unfold sessActive
  cases o.dialR a <;> simp

theorem setType_epsv (st : FCtx) (t : Str) (st2 : FCtx)
    (h : setType st t = .ok st2) : st2.epsvOnly = st.epsvOnly := by
  unfold setType at h
  split_ifs at h <;> simp_all <;> rw [← h]

theorem setMode_epsv (st : FCtx) (m : Str) (st2 : FCtx)
    (h : setMode st m = .ok st2) : st2.epsvOnly = st.epsvOnly := by
  unfold setMode at h
  split_ifs at h <;> simp_all <;> rw [← h]

theorem pasvAdvertise_epsv (o : Oracle) (st : FCtx) :
    (pasvAdvertise o st).1.epsvOnly = st.epsvOnly := by
  unfold pasvAdvertise
  rcases hps : sessPassive o st "tcp4".data with ⟨st2, acts, ok⟩
  have hse : st2.epsvOnly = st.epsvOnly := by
    have := sessPassive_fst_epsv o st "tcp4".data
    rw [hps] at this
    simpa using this
  cases ok
  · simpa using hse
  · rcases hd2 : st2.data with _ | d
    · simpa [hd2] using hse
    · rcases hhp : o.hostPortR d with e | hp <;> simp [hd2, hhp, hse]

theorem epsvAdvertise_epsv (o : Oracle) (st : FCtx) (nw : Str) :
    (epsvAdvertise o st nw).1.epsvOnly = st.epsvOnly := by
  unfold epsvAdvertise
  rcases hps : sessPassive o st nw with ⟨st2, acts, ok⟩
  have hse : st2.epsvOnly = st.epsvOnly := by
    have := sessPassive_fst_epsv o st nw
    rw [hps] at this
    simpa using this
  cases ok
  · simpa using hse
  · rcases hd2 : st2.data with _ | d
    · simpa [hd2] using hse
    · rcases hhp : o.portR d with e | p <;> simp [hd2, hhp, hse]

theorem activeConnect_epsv (o : Oracle) (st : FCtx) (addr : TCPAddrM)
    (okR : RpE) : (activeConnect o st addr okR).1.epsvOnly = st.epsvOnly := by
  unfold activeConnect
  rcases hsa : sessActive o st addr with ⟨st2, acts, ok⟩
  have hse : st2.epsvOnly = st.epsvOnly := by
    have := sessActive_fst_epsv o st addr
    rw [hsa] at this
    simpa using this
  cases ok <;> simpa using hse

/-- The only write the dispatcher ever makes to the EPSV-only flag is the
`EPSV ALL` latch; every other command leaves it untouched. -/
theorem fileHandle_epsvOnly (o : Oracle) (st : FCtx) (c : Cmd) :
    (fileHandle o st c).1.epsvOnly
      = (st.epsvOnly || (c.cmd = "EPSV".data && c.msg = "ALL".data)) := by
  obtain ⟨cc, cm⟩ := c
  simp only
  by_cases h1 : cc = "USER".data
  · subst h1; simp +decide [fileHandle]
  by_cases h2 : cc = "PASS".data
  · subst h2; simp +decide [fileHandle]
  by_cases h3 : cc = "SYST".data
  · subst h3; simp +decide [fileHandle]
  by_cases h4 : cc = "TYPE".data
  · subst h4
    rcases ht : setType st cm with e | st2
    · simp +decide [fileHandle, ht]
    · simp +decide [fileHandle, ht, setType_epsv st cm st2 ht]
  by_cases h5 : cc = "MODE".data
  · subst h5
    rcases ht : setMode st cm with e | st2
    · simp +decide [fileHandle, ht]
    · simp +decide [fileHandle, ht, setMode_epsv st cm st2 ht]
  by_cases h6 : cc = "PWD".data
  · subst h6; simp +decide [fileHandle]
  by_cases h7 : cc = "CWD".data
  · subst h7
    by_cases hm : cm = []
    · simp +decide [fileHandle, hm]
    · rcases hst : o.stat (ctxPath st.dir cm) with e | i
      · cases e <;> simp +decide [fileHandle, hm, hst, fsErrReply]
      · by_cases hd : i.isDir = false <;> simp +decide [fileHandle, hm, hst, hd]
  by_cases h8 : cc = "CDUP".data
  · subst h8
    rcases hst : o.stat (ctxPath st.dir "..".data) with e | i
    · cases e <;> simp +decide [fileHandle, hst, fsErrReply]
    · by_cases hd : i.isDir = false <;> simp +decide [fileHandle, hst, hd]
  by_cases h9 : cc = "MKD".data
  · subst h9
    rcases hmk : o.mkdirR (ctxPath st.dir cm) with _ | e <;>
      simp +decide [fileHandle, hmk]
  by_cases h10 : cc = "SIZE".data
  · subst h10
    rcases hst : o.stat (ctxPath st.dir cm) with e | i
    · cases e <;> simp +decide [fileHandle, hst, fsErrReply]
    · by_cases hd : i.isDir <;> simp +decide [fileHandle, hst, hd]
  by_cases h11 : cc = "MDTM".data
  · subst h11
    rcases hst : o.stat (ctxPath st.dir cm) with e | i
    · cases e <;> simp +decide [fileHandle, hst, fsErrReply]
    · by_cases hd : i.isDir <;> simp +decide [fileHandle, hst, hd]
  by_cases h12 : cc = "DELE".data ∨ cc = "RMD".data
  · have hgoal : ∀ cc2 : Str, cc2 = "DELE".data ∨ cc2 = "RMD".data →
        (fileHandle o st ⟨cc2, cm⟩).1.epsvOnly
          = (st.epsvOnly || (cc2 = "EPSV".data && cm = "ALL".data)) := by
      intro cc2 hcc2
      rcases hcc2 with h | h <;> subst h <;>
        (by_cases hm : cm = []
         · simp +decide [fileHandle, hm]
         · rcases hrm : o.removeR (ctxPath st.dir cm) with _ | e
           · simp +decide [fileHandle, hm, hrm]
           · cases e <;> simp +decide [fileHandle, hm, hrm, fsErrReply])
    exact hgoal cc h12
  by_cases h13 : cc = "RNFR".data
  · subst h13
    by_cases hm : cm = [] <;> simp +decide [fileHandle, hm]
  by_cases h14 : cc = "RNTO".data
  · subst h14
    by_cases hm : cm = []
    · simp +decide [fileHandle, hm]
    · by_cases hr : st.renameSrc = []
      · simp +decide [fileHandle, hm, hr]
      · rcases hrn : o.renameR st.renameSrc (ctxPath st.dir cm) with _ | e
        · simp +decide [fileHandle, hm, hr, hrn]
        · cases e <;> simp +decide [fileHandle, hm, hr, hrn, fsErrReply]
  by_cases h15 : cc = "PASV".data
  · subst h15
    by_cases he : st.epsvOnly
    · simp +decide [fileHandle, he]
    · simp +decide [fileHandle, he, pasvAdvertise_epsv]
  by_cases h16 : cc = "EPSV".data
  · subst h16
    by_cases hall : cm = "ALL".data
    · simp +decide [fileHandle, hall]
    · by_cases hm1 : cm = "1".data
      · simp +decide [fileHandle, hall, hm1, epsvAdvertise_epsv]
      by_cases hm2 : cm = "2".data
      · simp +decide [fileHandle, hall, hm1, hm2, epsvAdvertise_epsv]
      by_cases hm0 : cm = []
      · simp +decide [fileHandle, hall, hm1, hm2, hm0, epsvAdvertise_epsv]
      · simp +decide [fileHandle, hall, hm1, hm2, hm0]
  by_cases h17 : cc = "PORT".data
  · subst h17
    by_cases he : st.epsvOnly
    · simp +decide [fileHandle, he]
    · rcases hpp : parsePORT cm with _ | addr <;>
        simp +decide [fileHandle, he, hpp, activeConnect_epsv]
  by_cases h18 : cc = "EPRT".data
  · subst h18
    by_cases he : st.epsvOnly
    · simp +decide [fileHandle, he]
    · rcases hpp : parseEPRT cm with _ | addr <;>
        simp +decide [fileHandle, he, hpp, activeConnect_epsv]
  by_cases h19 : cc = "LIST".data ∨ cc = "NLST".data
  · rcases h19 with h | h
    · subst h
      rcases hfl : fsList o st ⟨"LIST".data, cm⟩ with ⟨pre, acts, r⟩
      simp +decide [fileHandle, hfl]
    · subst h
      rcases hfl : fsList o st ⟨"NLST".data, cm⟩ with ⟨pre, acts, r⟩
      simp +decide [fileHandle, hfl]
  by_cases h20 : cc = "RETR".data
  · subst h20
    rcases hfr : fsRetrieve o st ⟨"RETR".data, cm⟩ with ⟨pre, acts, r⟩
    simp +decide [fileHandle, hfr]
  by_cases h21 : cc = "STOR".data
  · subst h21
    rcases hfs : fsStore o st ⟨"STOR".data, cm⟩ with ⟨pre, acts, r⟩
    simp +decide [fileHandle, hfs]
  by_cases h22 : cc = "NOOP".data
  · subst h22; simp +decide [fileHandle]
  by_cases h23 : cc = "QUIT".data
  · subst h23; simp +decide [fileHandle]
  · simp +decide [fileHandle, h1, h2, h3, h4, h5, h6, h7, h8, h9, h10, h11,
      h12, h13, h14, h15, h16, h17, h18, h19, h20, h21, h22, h23]

/-- C8 witness: closing with a pending NOOP command, at a concrete state. -/
theorem c8_close_goodbye_witness :
    sclose true ⟨true, some ⟨"NOOP".data, []⟩, true⟩
      = ⟨⟨false, none, true⟩, [.reply 421 goodbyeMsg, .connClose], none⟩ :=
  c8_close_goodbye.1 ⟨true, some ⟨"NOOP".data, []⟩, true⟩ ⟨"NOOP".data, []⟩
    rfl rfl rfl (by decide)

theorem msd_ofDigits (b n : Nat) (hb : 1 < b) :
    Nat.ofDigits b (if n = 0 then [0] else (digitsOf b n).reverse).reverse = n := by
  by_cases h : n = 0
  · simp [h, Nat.ofDigits]
  · simp only [h, if_false, List.reverse_reverse, digitsOf_eq_digits b n hb,
      Nat.ofDigits_digits]

theorem msd_lt (b n : Nat) (hb : 1 < b) :
    ∀ d ∈ (if n = 0 then [0] else (digitsOf b n).reverse), d < b := by
  by_cases h : n = 0
  · simp only [h, if_true]
    intro d hd
    simp only [List.mem_singleton] at hd
    omega
  · simp only [h, if_false, digitsOf_eq_digits b n hb, List.mem_reverse]
    exact fun d hd => Nat.digits_lt_base hb hd

theorem msd_ne_nil (b n : Nat) (hb : 1 < b) :
    (if n = 0 then [0] else (digitsOf b n).reverse) ≠ [] := by
  by_cases h : n = 0
  · simp [h]
  · simp [h, digitsOf_eq_digits b n hb, Nat.digits_ne_nil_iff_ne_zero.mpr h]

theorem decChars_eq_map (n : Nat) :
    decChars n
      = (if n = 0 then [0] else (digitsOf 10 n).reverse).map
          fun d => Char.ofNat (d + 48) := by
  by_cases h : n = 0 <;> simp [decChars, h]

theorem hexChars_eq_map (n : Nat) :
    hexChars n
      = (if n = 0 then [0] else (digitsOf 16 n).reverse).map hexDigitChar := by
  by_cases h : n = 0 <;> simp [hexChars, hexDigitChar, h]

theorem decDigitChar_toNat (d : Nat) (hd : d < 10) :
    (Char.ofNat (d + 48)).toNat = d + 48 := by
  interval_cases d <;> decide

theorem decDigitChar_isDigit (d : Nat) (hd : d < 10) :
    isDigitChar (Char.ofNat (d + 48)) = true := by
  interval_cases d <;> decide

theorem foldl_base (b : Nat) :
    ∀ (L : List Nat) (a : Nat),
      L.foldl (fun acc d => acc * b + d) a
        = a * b ^ L.length + Nat.ofDigits b L.reverse := by
  intro L
  induction L with
  | nil => intro a; simp [Nat.ofDigits]
  | cons d L ih =>
    intro a
    rw [List.foldl_cons, ih, List.reverse_cons, Nat.ofDigits_append]
    simp [Nat.ofDigits]
    ring

/-- Round trip of the decimal printer through the full-string decimal
parser. -/
theorem parseDecAll_decChars (n : Nat) : parseDecAll (decChars n) = some n := by
  rw [decChars_eq_map]
  have hlt := msd_lt 10 n (by norm_num)
  have hne := msd_ne_nil 10 n (by norm_num)
  have hdig : ∀ c ∈ (if n = 0 then [0] else (digitsOf 10 n).reverse).map
      (fun d => Char.ofNat (d + 48)), isDigitChar c = true := by
    intro c hc
    rcases List.mem_map.mp hc with ⟨d, hd, rfl⟩
    exact decDigitChar_isDigit d (hlt d hd)
  have hfold : ∀ (L : List Nat) (a : Nat), (∀ d ∈ L, d < 10) →
      L.foldl (fun acc d => acc * 10 + ((Char.ofNat (d + 48)).toNat - 48)) a
        = L.foldl (fun acc d => acc * 10 + d) a := by
    intro L
    induction L with
    | nil => intro a h; rfl
    | cons d L ih =>
      intro a h
      rw [List.foldl_cons, List.foldl_cons,
        decDigitChar_toNat d (h d (List.mem_cons_self _ _))]
      rw [ih _ fun x hx => h x (List.mem_cons_of_mem _ hx)]
      have hd48 : d + 48 - 48 = d := by omega
      rw [hd48]
  unfold parseDecAll
  rw [if_pos]
  · congr 1
    rw [List.foldl_map, hfold _ 0 hlt, foldl_base 10]
    simpa using msd_ofDigits 10 n (by norm_num)
  · constructor
    · simp only [ne_eq, List.map_eq_nil_iff]
      exact hne
    · rw [List.all_eq_true]
      exact hdig

/-- Every character of a printed decimal is a digit. -/
theorem decChars_digits (n : Nat) :
    ∀ c ∈ decChars n, 48 ≤ c.toNat ∧ c.toNat ≤ 57 := by
  rw [decChars_eq_map]
  intro c hc
  rcases List.mem_map.mp hc with ⟨d, hd, rfl⟩
  have := msd_lt 10 n (by norm_num) d hd
  rw [decDigitChar_toNat d this]
  omega

theorem decChars_ne_nil (n : Nat) : decChars n ≠ [] := by
  rw [decChars_eq_map]
  simp only [ne_eq, List.map_eq_nil_iff]
  exact msd_ne_nil 10 n (by norm_num)

theorem parseUint8_decChars (n : Nat) (h : n ≤ 255) :
    parseUint8 (decChars n) = some n := by
  simp [parseUint8, parseDecAll_decChars, h]

theorem lookupPortTCP_decChars (n : Nat) (h : n ≤ 65535) :
    lookupPortTCP (decChars n) = some n := by
  simp [lookupPortTCP, parseDecAll_decChars, h]

theorem splitOn_strJoin (x : Char) (ls : List Str) (hne : ls ≠ [])
    (hx : ∀ l ∈ ls, x ∉ l) :
    (strJoin [x] ls).splitOn x = ls := by
  rw [strJoin_eq_intercalate]
  exact List.splitOn_intercalate ls x hx hne

/-- C2, classic six-tuple half: `ParsePORT` inverts `HostPort` on IPv4 TCP
addresses. -/
theorem parsePORT_hostPort (a : TCPAddrM) (hlen : a.ip.length = 4)
    (hbytes : ∀ x ∈ a.ip, x < 256) (hport : a.port < 65536) :
    (hostPort a).bind parsePORT = some a := by
  obtain ⟨ip, p⟩ := a
  simp only at hlen hbytes hport
  match ip, hlen with
  | [i0, i1, i2, i3], _ =>
    have h0 : i0 < 256 := hbytes i0 (by simp)
    have h1 : i1 < 256 := hbytes i1 (by simp)
    have h2 : i2 < 256 := hbytes i2 (by simp)
    have h3 : i3 < 256 := hbytes i3 (by simp)
    have hsplit : (strJoin ",".data
        [decChars i0, decChars i1, decChars i2, decChars i3,
          decChars (p / 256), decChars (p % 256)]).splitOn ','
        = [decChars i0, decChars i1, decChars i2, decChars i3,
            decChars (p / 256), decChars (p % 256)] := by
      refine splitOn_strJoin ',' _ (by simp) ?_
      intro l hl hmem
      have : ∀ n : Nat, ',' ∉ decChars n := by
        intro n hn
        have := decChars_digits n ',' hn
        rw [show (',').toNat = 44 from by decide] at this
        omega
      simp only [List.mem_cons, List.mem_singleton] at hl
      rcases hl with h | h | h | h | h | h | h <;> first
        | (subst h; exact this _ hmem)
        | simp_all
    have hhp : hostPort ⟨[i0, i1, i2, i3], p⟩
        = some (strJoin ",".data
          [decChars i0, decChars i1, decChars i2, decChars i3,
            decChars (p / 256), decChars (p % 256)]) := by
      simp [hostPort, ipTo4]
    rw [hhp, Option.some_bind]
    unfold parsePORT
    rw [hsplit]
    simp only [List.length_cons, List.length_nil, if_true]
    have hu : ∀ (n : Nat), n ≤ 255 → parseUint8 (decChars n) = some n :=
      parseUint8_decChars
    rw [show ([decChars i0, decChars i1, decChars i2, decChars i3,
        decChars (p / 256), decChars (p % 256)].mapM parseUint8)
        = some [i0, i1, i2, i3, p / 256, p % 256] from ?_]
    · have e1 : [i0, i1, i2, i3, p / 256, p % 256].getD 4 0 = p / 256 := rfl
      have e2 : [i0, i1, i2, i3, p / 256, p % 256].getD 5 0 = p % 256 := rfl
      have e3 : [i0, i1, i2, i3, p / 256, p % 256].take 4 = [i0, i1, i2, i3] := rfl
      simp only [e1, e2, e3]
      have e4 : p / 256 * 256 + p % 256 = p := by omega
      rw [e4]
    · simp [List.mapM.loop, hu i0 (by omega), hu i1 (by omega),
        hu i2 (by omega), hu i3 (by omega), hu (p / 256) (by omega),
        hu (p % 256) (by omega)]

theorem hexVal_hexDigitChar (d : Nat) (hd : d < 16) :
    hexVal (hexDigitChar d) = some d := by
  interval_cases d <;> decide

theorem hexChars_vals (g : Nat) :
    ∀ c ∈ hexChars g, ∃ v, v < 16 ∧ hexVal c = some v := by
  rw [hexChars_eq_map]
  intro c hc
  rcases List.mem_map.mp hc with ⟨d, hd, rfl⟩
  have := msd_lt 16 g (by norm_num) d hd
  exact ⟨d, this, hexVal_hexDigitChar d this⟩

theorem hexChars_ne_nil (g : Nat) : hexChars g ≠ [] := by
  rw [hexChars_eq_map]
  simp only [ne_eq, List.map_eq_nil_iff]
  exact msd_ne_nil 16 g (by norm_num)

theorem hexVal_some_ne (c : Char) (v : Nat) (h : hexVal c = some v) :
    c ≠ ':' ∧ c ≠ '.' ∧ c ≠ '|' := by
  refine ⟨?_, ?_, ?_⟩ <;> rintro rfl <;> simp [hexVal] at h

theorem digit_char_ne (c : Char) (h48 : 48 ≤ c.toNat) (h57 : c.toNat ≤ 57) :
    c ≠ ':' ∧ c ≠ '.' ∧ c ≠ '|' ∧ c ≠ ',' := by
  refine ⟨?_, ?_, ?_, ?_⟩ <;> rintro rfl
  · exact absurd h57 (by decide)
  · exact absurd h48 (by decide)
  · exact absurd h57 (by decide)
  · exact absurd h48 (by decide)

theorem mem_strJoin (sep : Str) (ls : List Str) (c : Char)
    (h : c ∈ strJoin sep ls) : c ∈ sep ∨ ∃ l ∈ ls, c ∈ l := by
  induction ls with
  | nil => simp [strJoin] at h
  | cons a t ih =>
    cases t with
    | nil =>
      right
      exact ⟨a, by simp, by simpa [strJoin] using h⟩
    | cons b t2 =>
      simp only [strJoin, List.append_assoc, List.mem_append] at h
      rcases h with h | h | h
      · exact Or.inr ⟨a, by simp, h⟩
      · exact Or.inl h
      · rcases ih h with h2 | ⟨l, hl, hcl⟩
        · exact Or.inl h2
        · exact Or.inr ⟨l, List.mem_cons_of_mem _ hl, hcl⟩

theorem sep_mem_strJoin (sep : Str) (a b : Str) (ls : List Str) (c : Char)
    (hc : c ∈ sep) : c ∈ strJoin sep (a :: b :: ls) := by
  simp only [strJoin, List.append_assoc, List.mem_append]
  exact Or.inr (Or.inl hc)

theorem find?_special_dot (s : Str) (hdot : '.' ∈ s) (hnc : ':' ∉ s) :
    (s.find? fun c => c = '.' ∨ c = ':') = some '.' := by
  cases hf : s.find? fun c => c = '.' ∨ c = ':' with
  | none =>
    have := List.find?_eq_none.mp hf '.' hdot
    simp at this
  | some c =>
    have hp := List.find?_some hf
    have hm := List.mem_of_find?_eq_some hf
    simp only [decide_eq_true_eq] at hp
    rcases hp with h | h
    · rw [h]
    · exact absurd (h ▸ hm) hnc

theorem find?_special_colon (s : Str) (hc : ':' ∈ s) (hnd : '.' ∉ s) :
    (s.find? fun c => c = '.' ∨ c = ':') = some ':' := by
  cases hf : s.find? fun c => c = '.' ∨ c = ':' with
  | none =>
    have := List.find?_eq_none.mp hf ':' hc
    simp at this
  | some c =>
    have hp := List.find?_some hf
    have hm := List.mem_of_find?_eq_some hf
    simp only [decide_eq_true_eq] at hp
    rcases hp with h | h
    · exact absurd (h ▸ hm) hnd
    · rw [h]

theorem decChars_len_le (v : Nat) (h : v ≤ 255) : (decChars v).length ≤ 3 := by
  by_cases h0 : v = 0
  · simp [decChars, h0]
  · rw [decChars_eq_map]
    simp only [h0, if_false, List.length_map, List.length_reverse,
      digitsOf_eq_digits 10 v (by norm_num)]
    have hmono := Nat.le_digits_len_le 10 v 255 h
    have h255 : Nat.digits 10 255 = [5, 5, 2] := by
      rw [← digitsOf_eq_digits 10 255 (by norm_num)]
      decide
    rw [h255] at hmono
    simpa using hmono

theorem decChars_head_ne_zero (v : Nat) (h0 : v ≠ 0) (hc : 1 < (decChars v).length) :
    (decChars v).head? ≠ some '0' := by
  rw [decChars_eq_map, if_neg h0, List.head?_map]
  have hne : Nat.digits 10 v ≠ [] := Nat.digits_ne_nil_iff_ne_zero.mpr h0
  rw [digitsOf_eq_digits 10 v (by norm_num), List.head?_reverse,
    List.getLast?_eq_getLast _ hne]
  have hlast := Nat.getLast_digit_ne_zero 10 h0
  have hlt : (Nat.digits 10 v).getLast hne < 10 :=
    Nat.digits_lt_base (by norm_num) (List.getLast_mem hne)
  intro hcontra
  simp only [Option.map_some', Option.some.injEq] at hcontra
  have : ((Nat.digits 10 v).getLast hne + 48) = ('0').toNat := by
    rw [← hcontra, decDigitChar_toNat _ hlt]
  rw [show ('0').toNat = 48 from by decide] at this
  omega

/-- Round trip of a printed byte through the IPv4 field parser of
`net.ParseIP`. -/
theorem parseV4Field_decChars (v : Nat) (h : v ≤ 255) :
    parseV4Field (decChars v) = some v := by
  unfold parseV4Field
  rw [if_neg (by simpa using decChars_ne_nil v)]
  rw [if_neg ?hdig]
  case hdig =>
    simp only [not_not, List.all_eq_true]
    intro c hc
    have := decChars_digits v c hc
    simp [isDigitChar]
    omega
  rw [if_neg ?hzero]
  case hzero =>
    rintro ⟨hlen, hhead⟩
    by_cases h0 : v = 0
    · simp [decChars, h0] at hlen
    · exact decChars_head_ne_zero v h0 hlen hhead
  rw [if_neg (by simpa using decChars_len_le v h)]
  rw [parseDecAll_decChars]
  simp [h]

/-- Round trip of a dotted quad through the IPv4 parser of `net.ParseIP`:
the result is the 16-byte IPv4-mapped form. -/
theorem parseV4_dotted (b0 b1 b2 b3 : Nat)
    (h0 : b0 < 256) (h1 : b1 < 256) (h2 : b2 < 256) (h3 : b3 < 256) :
    parseV4 (dotted [b0, b1, b2, b3]) = some (v4Prefix ++ [b0, b1, b2, b3]) := by
  have hsplit : (dotted [b0, b1, b2, b3]).splitOn '.'
      = [decChars b0, decChars b1, decChars b2, decChars b3] := by
    unfold dotted
    simp only [List.map_cons, List.map_nil]
    refine splitOn_strJoin '.' _ (by simp) ?_
    intro l hl hmem
    have hdd : ∀ n : Nat, '.' ∉ decChars n := by
      intro n hn
      have := decChars_digits n '.' hn
      rw [show ('.').toNat = 46 from by decide] at this
      omega
    simp only [List.mem_cons, List.mem_singleton] at hl
    rcases hl with h | h | h | h <;> first
      | (subst h; exact hdd _ hmem)
      | simp_all
  unfold parseV4
  rw [hsplit]
  simp [List.mapM.loop, parseV4Field_decChars b0 (by omega),
    parseV4Field_decChars b1 (by omega), parseV4Field_decChars b2 (by omega),
    parseV4Field_decChars b3 (by omega)]

theorem dot_mem_dotted (b0 b1 b2 b3 : Nat) :
    '.' ∈ dotted [b0, b1, b2, b3] := by
  unfold dotted
  simp only [List.map_cons]
  exact sep_mem_strJoin _ _ _ _ '.' (by decide)

theorem colon_not_mem_dotted (bs : List Nat) : ':' ∉ dotted bs := by
  intro h
  rcases mem_strJoin _ _ _ h with h | ⟨l, hl, hcl⟩
  · simp at h
  · rcases List.mem_map.mp hl with ⟨v, hv, rfl⟩
    have := decChars_digits v ':' hcl
    rw [show (':').toNat = 58 from by decide] at this
    omega

/-- Model of `net.ParseIP` on a dotted quad: dispatches to the IPv4
parser. -/
theorem parseIP_dotted (b0 b1 b2 b3 : Nat)
    (h0 : b0 < 256) (h1 : b1 < 256) (h2 : b2 < 256) (h3 : b3 < 256) :
    parseIP (dotted [b0, b1, b2, b3]) = some (v4Prefix ++ [b0, b1, b2, b3]) := by
  unfold parseIP
  rw [find?_special_dot _ (dot_mem_dotted b0 b1 b2 b3)
    (colon_not_mem_dotted [b0, b1, b2, b3])]
  exact parseV4_dotted b0 b1 b2 b3 h0 h1 h2 h3

theorem xtoiAux_hexList (ds : List Nat) :
    ∀ (rest : Str) (n i : Nat),
      (∀ d ∈ ds, d < 16) →
      n * 16 ^ ds.length + Nat.ofDigits 16 ds.reverse < 0xFFFFFF →
      (∀ c, rest.head? = some c → hexVal c = none) →
      (0 < i ∨ ds ≠ []) →
      xtoiAux (ds.map hexDigitChar ++ rest) n i
        = (n * 16 ^ ds.length + Nat.ofDigits 16 ds.reverse, i + ds.length, true) := by
  induction ds with
  | nil =>
    intro rest n i hd hbound hrest hne
    have hi : i ≠ 0 := by
      rcases hne with h | h
      · omega
      · exact absurd rfl h
    simp only [List.map_nil, List.nil_append, List.length_nil, pow_zero,
      Nat.mul_one, List.reverse_nil, Nat.ofDigits_nil, Nat.add_zero]
    cases rest with
    | nil => simp [xtoiAux, hi]
    | cons c r =>
      have := hrest c rfl
      simp [xtoiAux, this, hi]
  | cons d ds ih =>
    intro rest n i hd hbound hrest _
    have hdlt : d < 16 := hd d (List.mem_cons_self _ _)
    have hval : Nat.ofDigits 16 ((d :: ds).reverse)
        = Nat.ofDigits 16 ds.reverse + 16 ^ ds.length * d := by
      rw [List.reverse_cons, Nat.ofDigits_append]
      simp [Nat.ofDigits]
    have htot : n * 16 ^ (d :: ds).length + Nat.ofDigits 16 ((d :: ds).reverse)
        = (n * 16 + d) * 16 ^ ds.length + Nat.ofDigits 16 ds.reverse := by
      rw [hval]
      simp only [List.length_cons, pow_succ]
      ring
    have hbound2 : (n * 16 + d) * 16 ^ ds.length + Nat.ofDigits 16 ds.reverse
        < 0xFFFFFF := by rw [← htot]; exact hbound
    have hsmall : ¬0xFFFFFF ≤ n * 16 + d := by
      have hpow : 1 ≤ 16 ^ ds.length := Nat.one_le_pow _ _ (by norm_num)
      have : n * 16 + d ≤ (n * 16 + d) * 16 ^ ds.length :=
        Nat.le_mul_of_pos_right _ (by omega)
      omega
    simp only [List.map_cons, List.cons_append, xtoiAux,
      hexVal_hexDigitChar d hdlt]
    rw [if_neg hsmall]
    simp only [List.append_eq]
    rw [ih rest (n * 16 + d) (i + 1)
      (fun x hx => hd x (List.mem_cons_of_mem _ hx)) hbound2 hrest
      (Or.inl (by omega))]
    rw [htot]
    congr 1
    simp only [List.length_cons]
    congr 1
    omega

/-- Round trip of the hex printer through `xtoi`, with a non-hex
continuation. -/
theorem xtoi_hexChars (g : Nat) (hg : g ≤ 0xFFFF) (rest : Str)
    (hrest : ∀ c, rest.head? = some c → hexVal c = none) :
    xtoi (hexChars g ++ rest) = (g, (hexChars g).length, true) := by
  unfold xtoi
  rw [hexChars_eq_map]
  have h1 := xtoiAux_hexList (if g = 0 then [0] else (digitsOf 16 g).reverse)
    rest 0 0 (msd_lt 16 g (by norm_num)) ?_ hrest
    (Or.inr (msd_ne_nil 16 g (by norm_num)))
  · rw [h1]
    rw [msd_ofDigits 16 g (by norm_num)]
    simp
  · rw [msd_ofDigits 16 g (by norm_num)]
    have : (0 : Nat) * 16 ^ (if g = 0 then [0]
        else (digitsOf 16 g).reverse).length = 0 := by ring
    omega

theorem xtoi_hexChars_nil (g : Nat) (hg : g ≤ 0xFFFF) :
    xtoi (hexChars g) = (g, (hexChars g).length, true) := by
  have := xtoi_hexChars g hg [] (by intro c h; simp at h)
  simpa using this

theorem drop_after_sep (l1 l2 : Str) (c : Char) :
    (l1 ++ c :: l2).drop (l1.length + 1) = l2 := by
  have : l1 ++ c :: l2 = (l1 ++ [c]) ++ l2 := by simp
  rw [this, show l1.length + 1 = (l1 ++ [c]).length by simp]
  exact List.drop_left _ _

/-- One step of the `parseV6` loop on a final hex group. -/
theorem parseV6Loop_step_last (f i : Nat) (ell : Option Nat) (acc : List Nat)
    (g : Nat) (hg : g ≤ 0xFFFF) :
    parseV6Loop (f + 1) (hexChars g) i ell acc
      = parseV6Finish (i + 2) ell (acc ++ [g / 256, g % 256]) := by
  simp only [parseV6Loop, xtoi_hexChars_nil g hg]
  have hne : ¬(true = false ∨ 0xFFFF < g) := by simp; omega
  rw [if_neg hne, if_neg (by simp)]
  simp

/-- One step of the `parseV6` loop on a hex group followed by a separator
and a field that does not begin with a colon. -/
theorem parseV6Loop_step_mid (f i : Nat) (ell : Option Nat) (acc : List Nat)
    (g : Nat) (rest : Str) (hg : g ≤ 0xFFFF) (hrne : rest ≠ [])
    (hrh : ∀ c, rest.head? = some c → c ≠ ':') :
    parseV6Loop (f + 1) (hexChars g ++ ':' :: rest) i ell acc
      = (if i + 2 < 16 then
          parseV6Loop f rest (i + 2) ell (acc ++ [g / 256, g % 256])
        else none) := by
  have hx := xtoi_hexChars g hg (':' :: rest) (by
    intro c h
    rw [List.head?_cons, Option.some.injEq] at h
    subst h
    decide)
  simp only [parseV6Loop, hx]
  have hlen : (hexChars g ++ ':' :: rest).length
      = (hexChars g).length + (1 + rest.length) := by simp; omega
  have hgetD : (hexChars g ++ ':' :: rest).getD (hexChars g).length ' ' = ':' := by
    rw [List.getD_append_right _ _ _ _ (Nat.le_refl _), Nat.sub_self,
      List.getD_cons_zero]
  rw [if_neg (by simp; omega)]
  rw [if_neg (by rw [hgetD]; rintro ⟨-, h⟩; exact absurd h (by decide))]
  rw [if_neg (by rw [hlen]; omega)]
  rw [if_neg (by
    rw [hgetD, hlen]
    push_neg
    refine ⟨rfl, ?_⟩
    have : rest.length ≠ 0 := by simpa using hrne
    omega)]
  rw [drop_after_sep]
  rw [if_neg (by
    cases rest with
    | nil => exact absurd rfl hrne
    | cons c r =>
      rw [List.head?_cons]
      intro h
      rw [Option.some.injEq] at h
      exact hrh c rfl h)]

/-- One step of the `parseV6` loop on a hex group followed by the `"::"`
ellipsis (with no ellipsis seen yet). -/
theorem parseV6Loop_step_ellipsis (f i : Nat) (acc : List Nat)
    (g : Nat) (rest : Str) (hg : g ≤ 0xFFFF) :
    parseV6Loop (f + 1) (hexChars g ++ ':' :: ':' :: rest) i none acc
      = (if rest = [] then
            parseV6Finish (i + 2) (some (i + 2)) (acc ++ [g / 256, g % 256])
          else if i + 2 < 16 then
            parseV6Loop f rest (i + 2) (some (i + 2)) (acc ++ [g / 256, g % 256])
          else none) := by
  have hx := xtoi_hexChars g hg (':' :: ':' :: rest) (by
    intro c h
    rw [List.head?_cons, Option.some.injEq] at h
    subst h
    decide)
  simp only [parseV6Loop, hx]
  have hlen : (hexChars g ++ ':' :: ':' :: rest).length
      = (hexChars g).length + (2 + rest.length) := by simp; omega
  have hgetD : (hexChars g ++ ':' :: ':' :: rest).getD (hexChars g).length ' '
      = ':' := by
    rw [List.getD_append_right _ _ _ _ (Nat.le_refl _), Nat.sub_self,
      List.getD_cons_zero]
  rw [if_neg (by simp; omega)]
  rw [if_neg (by rw [hgetD]; rintro ⟨-, h⟩; exact absurd h (by decide))]
  rw [if_neg (by rw [hlen]; omega)]
  rw [if_neg (by
    rw [hgetD, hlen]
    push_neg
    exact ⟨rfl, by omega⟩)]
  rw [drop_after_sep, List.head?_cons, if_pos rfl, if_neg (by simp),
    List.drop_one, List.tail_cons]

theorem plainS_single (g : Nat) : plainS [g] = hexChars g := rfl

theorem plainS_cons2 (g g2 : Nat) (t : List Nat) :
    plainS (g :: g2 :: t) = hexChars g ++ ':' :: plainS (g2 :: t) := by
  simp [plainS, strJoin]

theorem plainS_head_hex (g : Nat) (gs : List Nat) :
    ∃ c v, (plainS (g :: gs)).head? = some c ∧ v < 16 ∧ hexVal c = some v := by
  obtain ⟨c, t, hct⟩ : ∃ c t, hexChars g = c :: t := by
    cases h : hexChars g with
    | nil => exact absurd h (hexChars_ne_nil g)
    | cons c t => exact ⟨c, t, rfl⟩
  have hmem : c ∈ hexChars g := by rw [hct]; exact List.mem_cons_self _ _
  obtain ⟨v, hv, hval⟩ := hexChars_vals g c hmem
  cases gs with
  | nil => exact ⟨c, v, by rw [plainS_single, hct]; rfl, hv, hval⟩
  | cons g2 t2 =>
    exact ⟨c, v, by rw [plainS_cons2, hct]; rfl, hv, hval⟩

theorem plainS_ne_nil (g : Nat) (gs : List Nat) : plainS (g :: gs) ≠ [] := by
  obtain ⟨c, v, hh, -, -⟩ := plainS_head_hex g gs
  intro h
  rw [h] at hh
  simp at hh

theorem plainS_head_ne_colon (g : Nat) (gs : List Nat) :
    ∀ c, (plainS (g :: gs)).head? = some c → c ≠ ':' := by
  obtain ⟨c0, v, hh, -, hval⟩ := plainS_head_hex g gs
  intro c hc
  rw [hh, Option.some.injEq] at hc
  subst hc
  exact (hexVal_some_ne c0 v hval).1

theorem fromGroups_append (l1 l2 : List Nat) :
    fromGroups (l1 ++ l2) = fromGroups l1 ++ fromGroups l2 := by
  induction l1 with
  | nil => rfl
  | cons g t ih => simp [fromGroups, ih]

theorem fromGroups_length (gs : List Nat) :
    (fromGroups gs).length = 2 * gs.length := by
  induction gs with
  | nil => rfl
  | cons g t ih => simp [fromGroups, ih]; omega

theorem fromGroups_replicate (k : Nat) :
    fromGroups (List.replicate k 0) = List.replicate (2 * k) 0 := by
  induction k with
  | zero => rfl
  | succ k ih =>
    rw [List.replicate_succ, fromGroups, ih]
    rw [show 2 * (k + 1) = (2 * k + 1) + 1 by omega]
    rw [List.replicate_succ, List.replicate_succ]

/-- The `parseV6` loop on a plain joined group list with no ellipsis seen,
filling bytes exactly to 16. -/
theorem parseV6Loop_plain_none (gs : List Nat) :
    ∀ (fuel i : Nat) (acc : List Nat),
      gs ≠ [] → (∀ g ∈ gs, g ≤ 0xFFFF) → i + 2 * gs.length = 16 →
      gs.length ≤ fuel →
      parseV6Loop fuel (plainS gs) i none acc = some (acc ++ fromGroups gs) := by
  induction gs with
  | nil => intro _ _ _ h; exact absurd rfl h
  | cons g gs ih =>
    intro fuel i acc _ hg hsum hfuel
    obtain ⟨f, rfl⟩ : ∃ f, fuel = f + 1 :=
      ⟨fuel - 1, by simp at hfuel; omega⟩
    cases gs with
    | nil =>
      rw [plainS_single, parseV6Loop_step_last f i none acc g (hg g (by simp))]
      unfold parseV6Finish
      simp only [List.length_cons, List.length_nil] at hsum
      rw [if_neg (by omega)]
      simp [fromGroups]
    | cons g2 t =>
      rw [plainS_cons2,
        parseV6Loop_step_mid f i none acc g _ (hg g (by simp))
          (plainS_ne_nil g2 t) (plainS_head_ne_colon g2 t)]
      simp only [List.length_cons] at hsum hfuel
      rw [if_pos (by omega)]
      rw [ih f (i + 2) (acc ++ [g / 256, g % 256]) (by simp)
        (fun x hx => hg x (List.mem_cons_of_mem _ hx))
        (by simp; omega) (by simp; omega)]
      simp [fromGroups]

/-- The `parseV6` loop on a plain joined group list after an ellipsis. -/
theorem parseV6Loop_plain_some (gs : List Nat) :
    ∀ (fuel i e : Nat) (acc : List Nat),
      gs ≠ [] → (∀ g ∈ gs, g ≤ 0xFFFF) → i + 2 * gs.length ≤ 16 →
      gs.length ≤ fuel →
      parseV6Loop fuel (plainS gs) i (some e) acc
        = parseV6Finish (i + 2 * gs.length) (some e) (acc ++ fromGroups gs) := by
  induction gs with
  | nil => intro _ _ _ _ h; exact absurd rfl h
  | cons g gs ih =>
    intro fuel i e acc _ hg hsum hfuel
    obtain ⟨f, rfl⟩ : ∃ f, fuel = f + 1 :=
      ⟨fuel - 1, by simp at hfuel; omega⟩
    cases gs with
    | nil =>
      rw [plainS_single,
        parseV6Loop_step_last f i (some e) acc g (hg g (by simp))]
      simp [fromGroups]
    | cons g2 t =>
      rw [plainS_cons2,
        parseV6Loop_step_mid f i (some e) acc g _ (hg g (by simp))
          (plainS_ne_nil g2 t) (plainS_head_ne_colon g2 t)]
      simp only [List.length_cons] at hsum hfuel
      rw [if_pos (by omega)]
      rw [ih f (i + 2) e (acc ++ [g / 256, g % 256]) (by simp)
        (fun x hx => hg x (List.mem_cons_of_mem _ hx))
        (by simp; omega) (by simp; omega)]
      simp only [List.length_cons, List.append_assoc]
      rw [show i + 2 + 2 * (t.length + 1) = i + 2 * (t.length + 1 + 1) by omega]
      simp [fromGroups]

/-- The `parseV6` loop across the left groups and the `"::"` ellipsis. -/
theorem parseV6Loop_left_run (left : List Nat) :
    ∀ (fuel i : Nat) (acc : List Nat) (tail : Str),
      left ≠ [] → (∀ g ∈ left, g ≤ 0xFFFF) → i + 2 * left.length ≤ 14 →
      left.length ≤ fuel →
      parseV6Loop fuel (plainS left ++ ':' :: ':' :: tail) i none acc
        = (if tail = [] then
            parseV6Finish (i + 2 * left.length) (some (i + 2 * left.length))
              (acc ++ fromGroups left)
          else
            parseV6Loop (fuel - left.length) tail (i + 2 * left.length)
              (some (i + 2 * left.length)) (acc ++ fromGroups left)) := by
  induction left with
  | nil => intro _ _ _ _ h; exact absurd rfl h
  | cons g gs ih =>
    intro fuel i acc tail _ hg hsum hfuel
    obtain ⟨f, rfl⟩ : ∃ f, fuel = f + 1 :=
      ⟨fuel - 1, by simp at hfuel; omega⟩
    cases gs with
    | nil =>
      rw [plainS_single,
        parseV6Loop_step_ellipsis f i acc g tail (hg g (by simp))]
      simp only [List.length_cons, List.length_nil] at hsum ⊢
      by_cases ht : tail = []
      · rw [if_pos ht, if_pos ht]
        simp [fromGroups]
      · rw [if_neg ht, if_neg ht, if_pos (by omega)]
        simp [fromGroups]
    | cons g2 t =>
      rw [plainS_cons2]
      rw [show (hexChars g ++ ':' :: plainS (g2 :: t)) ++ ':' :: ':' :: tail
          = hexChars g ++ ':' :: (plainS (g2 :: t) ++ ':' :: ':' :: tail) by
        simp]
      rw [parseV6Loop_step_mid f i none acc g _ (hg g (by simp))
        (by simp [plainS_ne_nil g2 t])
        ?hhd]
      case hhd =>
        intro c hc
        obtain ⟨c2, t2, hct⟩ : ∃ c2 t2, plainS (g2 :: t) = c2 :: t2 := by
          cases h : plainS (g2 :: t) with
          | nil => exact absurd h (plainS_ne_nil g2 t)
          | cons c2 t2 => exact ⟨c2, t2, rfl⟩
        rw [hct] at hc
        simp only [List.cons_append, List.head?_cons, Option.some.injEq] at hc
        exact hc ▸ plainS_head_ne_colon g2 t c2 (by rw [hct]; rfl)
      simp only [List.length_cons] at hsum hfuel
      rw [if_pos (by omega)]
      rw [ih f (i + 2) (acc ++ [g / 256, g % 256]) tail (by simp)
        (fun x hx => hg x (List.mem_cons_of_mem _ hx))
        (by simp; omega) (by simp; omega)]
      have harith : i + 2 + 2 * (t.length + 1) = i + 2 * (t.length + 1 + 1) := by
        omega
      have hfuel2 : f - (t.length + 1) = f + 1 - (t.length + 1 + 1) := by omega
      by_cases ht : tail = []
      · rw [if_pos ht, if_pos ht]
        simp only [List.length_cons, List.append_assoc, harith]
        simp [fromGroups]
      · rw [if_neg ht, if_neg ht]
        simp only [List.length_cons, List.append_assoc, harith, hfuel2]
        simp [fromGroups]

theorem zeroLenFrom_le (L : List Nat) : zeroLenFrom L ≤ L.length := by
  induction L with
  | nil => simp [zeroLenFrom]
  | cons c rest ih =>
    cases c with
    | zero => simp [zeroLenFrom]; omega
    | succ c => simp [zeroLenFrom]

theorem zeroLenFrom_decomp (L : List Nat) :
    L = List.replicate (zeroLenFrom L) 0 ++ L.drop (zeroLenFrom L) := by
  induction L with
  | nil => rfl
  | cons c rest ih =>
    cases c with
    | zero =>
      have hz : zeroLenFrom (0 :: rest) = zeroLenFrom rest + 1 := by
        rw [show zeroLenFrom (0 :: rest) = 1 + zeroLenFrom rest from rfl]
        omega
      rw [hz, List.replicate_succ, List.drop_succ_cons, List.cons_append, ← ih]
    | succ c =>
      rw [show zeroLenFrom ((c + 1) :: rest) = 0 from rfl]
      rfl

theorem bestRunGo_spec (gs : List Nat) :
    bestRunGo gs = (0, 0)
      ∨ (bestRunGo gs).2 = zeroLenFrom (gs.drop (bestRunGo gs).1) := by
  unfold bestRunGo
  generalize List.range gs.length = l
  have H : ∀ (l : List Nat) (acc : Nat × Nat),
      (acc = (0, 0) ∨ acc.2 = zeroLenFrom (gs.drop acc.1)) →
      (l.foldl (fun best i =>
          let l2 := zeroLenFrom (gs.drop i)
          if l2 > best.2 then (i, l2) else best) acc) = (0, 0)
        ∨ (l.foldl (fun best i =>
            let l2 := zeroLenFrom (gs.drop i)
            if l2 > best.2 then (i, l2) else best) acc).2
          = zeroLenFrom (gs.drop (l.foldl (fun best i =>
              let l2 := zeroLenFrom (gs.drop i)
              if l2 > best.2 then (i, l2) else best) acc).1) := by
    intro l
    induction l with
    | nil => intro acc h; simpa using h
    | cons x l ih =>
      intro acc h
      rw [List.foldl_cons]
      apply ih
      by_cases hx : zeroLenFrom (gs.drop x) > acc.2
      · simp [hx]
      · simp only [hx, if_false]
        exact h
  exact H l (0, 0) (Or.inl rfl)

theorem findRun_spec (gs : List Nat) (st len : Nat)
    (h : findRun gs = some (st, len)) :
    2 ≤ len ∧ st + len ≤ gs.length
      ∧ gs = gs.take st ++ List.replicate len 0 ++ gs.drop (st + len) := by
  have h2 : (if 2 ≤ (bestRunGo gs).2 then some (bestRunGo gs) else none)
      = some (st, len) := h
  by_cases hc : 2 ≤ (bestRunGo gs).2
  · rw [if_pos hc, Option.some.injEq] at h2
    have hb := bestRunGo_spec gs
    rcases hb with hb | hb
    · rw [hb] at hc
      simp at hc
    · rw [h2] at hb hc
      simp only at hb hc
      have hlen := zeroLenFrom_le (gs.drop st)
      rw [← hb] at hlen
      rw [List.length_drop] at hlen
      have hst : st ≤ gs.length := by
        by_contra hgt
        push_neg at hgt
        have : gs.drop st = [] := List.drop_eq_nil_of_le (by omega)
        rw [this] at hb
        rw [show zeroLenFrom [] = 0 from rfl] at hb
        omega
      refine ⟨hc, by omega, ?_⟩
      rw [List.append_assoc]
      conv_lhs => rw [← List.take_append_drop st gs]
      congr 1
      conv_lhs => rw [zeroLenFrom_decomp (gs.drop st), ← hb, List.drop_drop]
  · rw [if_neg hc] at h2
    exact absurd h2 (by simp)

theorem head?_append_left (l1 l2 : Str) (c : Char) (h : l1.head? = some c) :
    (l1 ++ l2).head? = some c := by
  cases l1 with
  | nil => simp at h
  | cons a t => simpa using h

theorem parseV6_no_lead_colon (s : Str)
    (h : ∀ c, s.head? = some c → c ≠ ':') :
    parseV6 s = parseV6Loop 8 s 0 none [] := by
  unfold parseV6
  rw [if_neg ?hcond]
  case hcond =>
    rintro ⟨hl, ht⟩
    cases s with
    | nil => simp at hl
    | cons c rest =>
      have : c = ':' := by
        have := congrArg List.head? ht
        simpa using this
      exact h c rfl this

theorem fromGroups_toGroups (ip : List Nat) (hb : ∀ x ∈ ip, x < 256)
    (he : ip.length % 2 = 0) : fromGroups (toGroups ip) = ip := by
  have H : ∀ (n : Nat) (l : List Nat), l.length ≤ n → (∀ x ∈ l, x < 256) →
      l.length % 2 = 0 → fromGroups (toGroups l) = l := by
    intro n
    induction n with
    | zero =>
      intro l hlen _ _
      have : l = [] := List.eq_nil_of_length_eq_zero (by omega)
      subst this
      rfl
    | succ n ihn =>
      intro l hlen hb2 he2
      match l with
      | [] => rfl
      | [x] => simp at he2
      | a :: b :: rest =>
        have ha : a < 256 := hb2 a (by simp)
        have hbb : b < 256 := hb2 b (by simp)
        rw [show toGroups (a :: b :: rest) = (a * 256 + b) :: toGroups rest
          from rfl]
        rw [fromGroups]
        have h1 : (a * 256 + b) / 256 = a := by omega
        have h2 : (a * 256 + b) % 256 = b := by omega
        rw [h1, h2, ihn rest (by simp at hlen; omega)
          (fun x hx => hb2 x (by simp [hx])) (by simp at he2; omega)]
  exact H ip.length ip (Nat.le_refl _) hb he

theorem toGroups_length (ip : List Nat) (he : ip.length % 2 = 0) :
    (toGroups ip).length = ip.length / 2 := by
  have H : ∀ (n : Nat) (l : List Nat), l.length ≤ n → l.length % 2 = 0 →
      (toGroups l).length = l.length / 2 := by
    intro n
    induction n with
    | zero =>
      intro l hlen _
      have : l = [] := List.eq_nil_of_length_eq_zero (by omega)
      subst this
      rfl
    | succ n ihn =>
      intro l hlen he2
      match l with
      | [] => rfl
      | [x] => simp at he2
      | a :: b :: rest =>
        rw [show toGroups (a :: b :: rest) = (a * 256 + b) :: toGroups rest
          from rfl]
        rw [List.length_cons, ihn rest (by simp at hlen; omega)
          (by simp at he2; omega)]
        simp only [List.length_cons]
        omega
  exact H ip.length ip (Nat.le_refl _) he

theorem toGroups_bound (ip : List Nat) (hb : ∀ x ∈ ip, x < 256) :
    ∀ g ∈ toGroups ip, g ≤ 0xFFFF := by
  have H : ∀ (n : Nat) (l : List Nat), l.length ≤ n → (∀ x ∈ l, x < 256) →
      ∀ g ∈ toGroups l, g ≤ 0xFFFF := by
    intro n
    induction n with
    | zero =>
      intro l hlen _
      have : l = [] := List.eq_nil_of_length_eq_zero (by omega)
      subst this
      simp [toGroups]
    | succ n ihn =>
      intro l hlen hb2 g hg
      match l, hg with
      | [x], hg => simp [toGroups] at hg
      | a :: b :: rest, hg =>
        rw [show toGroups (a :: b :: rest) = (a * 256 + b) :: toGroups rest
          from rfl] at hg
        rcases List.mem_cons.mp hg with h | h
        · have ha : a < 256 := hb2 a (by simp)
          have hbb : b < 256 := hb2 b (by simp)
          omega
        · exact ihn rest (by simp at hlen; omega)
            (fun x hx => hb2 x (by simp [hx])) g h
  exact H ip.length ip (Nat.le_refl _) hb

theorem plainS_nil : plainS ([] : List Nat) = [] := rfl

/-- Round trip of the compressed IPv6 rendering through the `parseV6`
model: printing eight groups and reparsing yields their bytes. -/
theorem parseV6_v6String (gs : List Nat) (hlen : gs.length = 8)
    (hb : ∀ g ∈ gs, g ≤ 0xFFFF) :
    parseV6 (v6String gs) = some (fromGroups gs) := by
  cases hrun : findRun gs with
  | none =>
    obtain ⟨g, t, rfl⟩ : ∃ g t, gs = g :: t := by
      cases gs with
      | nil => simp at hlen
      | cons g t => exact ⟨g, t, rfl⟩
    have hv6 : v6String (g :: t) = plainS (g :: t) := by
      unfold v6String
      rw [hrun]
      rfl
    rw [hv6, parseV6_no_lead_colon _ (plainS_head_ne_colon g t)]
    have := parseV6Loop_plain_none (g :: t) 8 0 [] (by simp) hb
      (by omega) (by omega)
    simpa using this
  | some b =>
    obtain ⟨st, len⟩ := b
    obtain ⟨hlen2, hle, hdecomp⟩ := findRun_spec gs st len hrun
    rw [hlen] at hle
    have hlenL : (gs.take st).length = st := by
      rw [List.length_take]
      omega
    have hlenR : (gs.drop (st + len)).length = 8 - (st + len) := by
      rw [List.length_drop, hlen]
    have hbL : ∀ g ∈ gs.take st, g ≤ 0xFFFF :=
      fun g hg => hb g (List.mem_of_mem_take hg)
    have hbR : ∀ g ∈ gs.drop (st + len), g ≤ 0xFFFF :=
      fun g hg => hb g (List.mem_of_mem_drop hg)
    have hFL : (fromGroups (gs.take st)).length = 2 * st := by
      rw [fromGroups_length, hlenL]
    have hv6 : v6String gs
        = plainS (gs.take st) ++ ':' :: ':' :: plainS (gs.drop (st + len)) := by
      unfold v6String
      rw [hrun]
      rw [show ("::".data : Str) = [':', ':'] from by decide]
      simp [plainS]
    have hrhs : fromGroups gs
        = fromGroups (gs.take st) ++ List.replicate (2 * len) 0
            ++ fromGroups (gs.drop (st + len)) := by
      conv_lhs => rw [hdecomp]
      rw [fromGroups_append, fromGroups_append, fromGroups_replicate]
    by_cases hst : st = 0
    · subst hst
      simp only [List.take_zero, plainS_nil, List.nil_append, Nat.zero_add]
        at hv6 hrhs hlenR hbR hle ⊢
      by_cases hrnil : gs.drop len = []
      · have hgs : gs = List.replicate len 0 := by
          conv_lhs => rw [hdecomp]
          simp [hrnil]
        have hlen8 : len = 8 := by
          have := congrArg List.length hgs
          rw [hlen, List.length_replicate] at this
          omega
        rw [hv6, hrnil, plainS_nil, hgs, hlen8, fromGroups_replicate]
        decide
      · obtain ⟨g2, t2, hR⟩ : ∃ g2 t2, gs.drop len = g2 :: t2 := by
          cases h : gs.drop len with
          | nil => exact absurd h hrnil
          | cons g2 t2 => exact ⟨g2, t2, rfl⟩
        rw [hv6]
        have hcond : 2 ≤ (':' :: ':' :: plainS (gs.drop len)).length ∧
            (':' :: ':' :: plainS (gs.drop len)).take 2 = "::".data := by
          constructor
          · simp
          · rw [show ("::".data : Str) = [':', ':'] from by decide]
            rfl
        unfold parseV6
        rw [if_pos hcond]
        simp only [List.drop_succ_cons, List.drop_zero]
        rw [if_neg (by rw [hR]; exact plainS_ne_nil g2 t2)]
        rw [parseV6Loop_plain_some (gs.drop len) 8 0 0 []
          (by rw [hR]; simp) hbR (by omega) (by omega)]
        unfold parseV6Finish
        rw [if_pos (by omega)]
        simp only [List.take_zero, List.drop_zero, List.nil_append]
        rw [hrhs]
        rw [show 16 - (0 + 2 * (gs.drop len).length) = 2 * len by omega]
        rfl
    · have hst6 : st ≤ 6 := by omega
      obtain ⟨g, t, hL⟩ : ∃ g t, gs.take st = g :: t := by
        cases h : gs.take st with
        | nil =>
          rw [h] at hlenL
          simp at hlenL
          omega
        | cons g t => exact ⟨g, t, rfl⟩
      rw [hv6]
      rw [parseV6_no_lead_colon _ ?hhd]
      case hhd =>
        intro c hc
        obtain ⟨c0, v, hh, -, hval⟩ : ∃ c0 v,
            (plainS (gs.take st)).head? = some c0 ∧ v < 16
              ∧ hexVal c0 = some v := by
          rw [hL]
          exact plainS_head_hex g t
        rw [head?_append_left _ _ c0 hh, Option.some.injEq] at hc
        subst hc
        exact (hexVal_some_ne c0 v hval).1
      rw [parseV6Loop_left_run (gs.take st) 8 0 []
        (plainS (gs.drop (st + len))) (by rw [hL]; simp) hbL
        (by omega) (by omega)]
      by_cases hrnil : gs.drop (st + len) = []
      · rw [if_pos (by rw [hrnil]; rfl)]
        have hsl8 : st + len = 8 := by
          have := congrArg List.length hrnil
          rw [hlenR] at this
          simp at this
          omega
        unfold parseV6Finish
        rw [if_pos (by omega)]
        simp only [Nat.zero_add, List.nil_append]
        have htake : (fromGroups (gs.take st)).take (2 * st)
            = fromGroups (gs.take st) := by
          rw [← hFL]
          exact List.take_length _
        have hdropl : (fromGroups (gs.take st)).drop (2 * st) = [] := by
          rw [← hFL]
          exact List.drop_length _
        rw [hlenL, htake, hdropl, hrhs, hrnil]
        rw [show (fromGroups ([] : List Nat)) = [] from rfl]
        rw [show 16 - 2 * st = 2 * len by omega]
      · obtain ⟨g2, t2, hR⟩ : ∃ g2 t2, gs.drop (st + len) = g2 :: t2 := by
          cases h : gs.drop (st + len) with
          | nil => exact absurd h hrnil
          | cons g2 t2 => exact ⟨g2, t2, rfl⟩
        rw [if_neg (by rw [hR]; exact plainS_ne_nil g2 t2)]
        rw [parseV6Loop_plain_some (gs.drop (st + len)) (8 - (gs.take st).length)
          (0 + 2 * (gs.take st).length) (0 + 2 * (gs.take st).length) _
          (by rw [hR]; simp) hbR (by omega) (by omega)]
        unfold parseV6Finish
        rw [if_pos (by omega)]
        simp only [Nat.zero_add, List.nil_append]
        have htake : (fromGroups (gs.take st)
              ++ fromGroups (gs.drop (st + len))).take (2 * st)
            = fromGroups (gs.take st) := by
          rw [← hFL]
          exact List.take_left _ _
        have hdropl : (fromGroups (gs.take st)
              ++ fromGroups (gs.drop (st + len))).drop (2 * st)
            = fromGroups (gs.drop (st + len)) := by
          rw [← hFL]
          exact List.drop_left _ _
        rw [hlenL, htake, hdropl, hrhs]
        rw [show 16 - (2 * st + 2 * (gs.drop (st + len)).length) = 2 * len by
          omega]

theorem mem_plainS (gs : List Nat) (c : Char) (h : c ∈ plainS gs) :
    c = ':' ∨ ∃ v, v < 16 ∧ hexVal c = some v := by
  unfold plainS at h
  rcases mem_strJoin _ _ _ h with h | ⟨l, hl, hcl⟩
  · left
    simpa using h
  · rcases List.mem_map.mp hl with ⟨g, hg, rfl⟩
    right
    exact hexChars_vals g c hcl

theorem dot_not_mem_plainS (gs : List Nat) : '.' ∉ plainS gs := by
  intro h
  rcases mem_plainS gs '.' h with h | ⟨v, -, hval⟩
  · exact absurd h (by decide)
  · exact (hexVal_some_ne '.' v hval).2.1 rfl

theorem pipe_not_mem_plainS (gs : List Nat) : '|' ∉ plainS gs := by
  intro h
  rcases mem_plainS gs '|' h with h | ⟨v, -, hval⟩
  · exact absurd h (by decide)
  · exact (hexVal_some_ne '|' v hval).2.2 rfl

theorem colon_mem_plainS (g g2 : Nat) (t : List Nat) :
    ':' ∈ plainS (g :: g2 :: t) := by
  unfold plainS
  simp only [List.map_cons]
  exact sep_mem_strJoin _ _ _ _ ':' (by decide)

theorem dot_not_mem_v6String (gs : List Nat) : '.' ∉ v6String gs := by
  unfold v6String
  cases hrun : findRun gs with
  | none => exact dot_not_mem_plainS gs
  | some b =>
    obtain ⟨st, len⟩ := b
    intro h
    simp only [List.mem_append] at h
    rcases h with (h | h) | h
    · exact dot_not_mem_plainS (gs.take st) h
    · exact absurd h (by decide)
    · exact dot_not_mem_plainS (gs.drop (st + len)) h

theorem pipe_not_mem_v6String (gs : List Nat) : '|' ∉ v6String gs := by
  unfold v6String
  cases hrun : findRun gs with
  | none => exact pipe_not_mem_plainS gs
  | some b =>
    obtain ⟨st, len⟩ := b
    intro h
    simp only [List.mem_append] at h
    rcases h with (h | h) | h
    · exact pipe_not_mem_plainS (gs.take st) h
    · exact absurd h (by decide)
    · exact pipe_not_mem_plainS (gs.drop (st + len)) h

theorem colon_mem_v6String (gs : List Nat) (hlen : gs.length = 8) :
    ':' ∈ v6String gs := by
  unfold v6String
  cases hrun : findRun gs with
  | none =>
    obtain ⟨g, g2, t, rfl⟩ : ∃ g g2 t, gs = g :: g2 :: t := by
      cases gs with
      | nil => simp at hlen
      | cons g r =>
        cases r with
        | nil => simp at hlen
        | cons g2 t => exact ⟨g, g2, t, rfl⟩
    exact colon_mem_plainS g g2 t
  | some b =>
    obtain ⟨st, len⟩ := b
    refine List.mem_append.mpr (Or.inl (List.mem_append.mpr (Or.inr ?_)))
    decide

/-- Model of `net.ParseIP` on the compressed IPv6 rendering: dispatches to
the IPv6 parser and inverts it. -/
theorem parseIP_v6String (gs : List Nat) (hlen : gs.length = 8)
    (hb : ∀ g ∈ gs, g ≤ 0xFFFF) :
    parseIP (v6String gs) = some (fromGroups gs) := by
  unfold parseIP
  rw [find?_special_colon _ (colon_mem_v6String gs hlen)
    (dot_not_mem_v6String gs)]
  exact parseV6_v6String gs hlen hb

theorem exists_list4 (l : List Nat) (h : l.length = 4) :
    ∃ a b c d, l = [a, b, c, d] := by
  match l, h with
  | [a, b, c, d], _ => exact ⟨a, b, c, d, rfl⟩

theorem pipe_not_mem_decChars (n : Nat) : '|' ∉ decChars n := by
  intro h
  have := decChars_digits n '|' h
  rw [show ('|').toNat = 124 from by decide] at this
  omega

theorem pipe_not_mem_dotted (bs : List Nat) : '|' ∉ dotted bs := by
  intro h
  rcases mem_strJoin _ _ _ h with h | ⟨l, hl, hcl⟩
  · exact absurd h (by decide)
  · rcases List.mem_map.mp hl with ⟨v, hv, rfl⟩
    exact pipe_not_mem_decChars v hcl

theorem pipe_not_mem_ipString (ip : List Nat) : '|' ∉ ipString ip := by
  unfold ipString
  by_cases h4 : ip.length = 4
  · rw [if_pos h4]
    exact pipe_not_mem_dotted ip
  · rw [if_neg h4]
    by_cases h16 : ip.length = 16
    · rw [if_pos h16]
      cases ipTo4 ip with
      | some b4 => exact pipe_not_mem_dotted b4
      | none => exact pipe_not_mem_v6String (toGroups ip)
    · rw [if_neg h16]
      decide

/-- `net.ParseIP` followed by `To16` inverts `net.IP.String` on any 16-byte
address with in-range bytes. -/
theorem parseIP_ipString_16 (ip : List Nat) (hlen : ip.length = 16)
    (hb : ∀ x ∈ ip, x < 256) :
    (parseIP (ipString ip)).bind ipTo16 = some ip := by
  unfold ipString
  rw [if_neg (by omega), if_pos hlen]
  cases h4 : ipTo4 ip with
  | some b4 =>
    have hcond : ip.length = 16 ∧ ip.take 12 = v4Prefix := by
      unfold ipTo4 at h4
      rw [if_neg (by omega)] at h4
      by_cases hc : ip.length = 16 ∧ ip.take 12 = v4Prefix
      · exact hc
      · rw [if_neg hc] at h4
        exact absurd h4 (by simp)
    have hb4 : b4 = ip.drop 12 := by
      unfold ipTo4 at h4
      rw [if_neg (by omega), if_pos hcond] at h4
      simpa using h4.symm
    have hip : ip = v4Prefix ++ b4 := by
      rw [hb4, ← hcond.2]
      exact (List.take_append_drop 12 ip).symm
    have hlb4 : b4.length = 4 := by
      rw [hb4, List.length_drop, hlen]
    obtain ⟨b0, b1, b2, b3, rfl⟩ := exists_list4 b4 hlb4
    show (parseIP (dotted [b0, b1, b2, b3])).bind ipTo16 = some ip
    rw [parseIP_dotted b0 b1 b2 b3
      (hb b0 (by rw [hip]; simp)) (hb b1 (by rw [hip]; simp))
      (hb b2 (by rw [hip]; simp)) (hb b3 (by rw [hip]; simp))]
    rw [Option.some_bind]
    unfold ipTo16
    rw [if_neg (by simp [v4Prefix]), if_pos (by simp [v4Prefix])]
    rw [← hip]
  | none =>
    show (parseIP (v6String (toGroups ip))).bind ipTo16 = some ip
    rw [parseIP_v6String (toGroups ip) ?hl (toGroups_bound ip hb)]
    case hl =>
      rw [toGroups_length ip (by omega), hlen]
    rw [fromGroups_toGroups ip hb (by omega)]
    rw [Option.some_bind]
    unfold ipTo16
    rw [if_neg (by omega), if_pos hlen]

/-- `net.ParseIP` followed by `To4` inverts `net.IP.String` on any 4-byte
address with in-range bytes. -/
theorem parseIP_ipString_4 (ip : List Nat) (hlen : ip.length = 4)
    (hb : ∀ x ∈ ip, x < 256) :
    (parseIP (ipString ip)).bind ipTo4 = some ip := by
  unfold ipString
  rw [if_pos hlen]
  obtain ⟨b0, b1, b2, b3, rfl⟩ := exists_list4 ip hlen
  rw [parseIP_dotted b0 b1 b2 b3
    (hb b0 (by simp)) (hb b1 (by simp)) (hb b2 (by simp)) (hb b3 (by simp))]
  rw [Option.some_bind]
  unfold ipTo4
  rw [if_neg (by simp [v4Prefix]), if_pos (by simp [v4Prefix])]
  rfl

/-- `splitEAddr` recovers the three fields of a pipe-delimited address
string whose fields avoid the delimiter. -/
theorem splitEAddr_pipe (p1 p2 p3 : Str)
    (h1 : '|' ∉ p1) (h2 : '|' ∉ p2) (h3 : '|' ∉ p3) :
    splitEAddr ('|' :: (strJoin ['|'] [p1, p2, p3] ++ ['|']))
      = some (p1, p2, p3) := by
  have hlast : ('|' :: (strJoin ['|'] [p1, p2, p3] ++ ['|'])).getLast?
      = some '|' := by
    rw [show ('|' :: (strJoin ['|'] [p1, p2, p3] ++ ['|']))
        = ('|' :: strJoin ['|'] [p1, p2, p3]) ++ ['|'] by simp]
    exact List.getLast?_concat _
  unfold splitEAddr
  rw [if_neg (by simp)]
  show (if validDelim '|' = false
        ∨ ('|' :: (strJoin ['|'] [p1, p2, p3] ++ ['|'])).getLast? ≠ some '|'
      then none
      else match ((strJoin ['|'] [p1, p2, p3] ++ ['|']).dropLast.splitOn '|'
          : List Str) with
        | [a, b, c] => some (a, b, c)
        | _ => none) = some (p1, p2, p3)
  rw [if_neg ?hv]
  case hv =>
    rintro (h | h)
    · exact absurd h (by decide)
    · exact h hlast
  rw [List.dropLast_concat]
  rw [splitOn_strJoin '|' [p1, p2, p3] (by simp) ?hnp]
  case hnp =>
    intro l hl
    simp only [List.mem_cons, List.mem_singleton] at hl
    rcases hl with h | h | h | h
    · exact h ▸ h1
    · exact h ▸ h2
    · exact h ▸ h3
    · simp at h

/-- C2, extended half: `ParseEPRT` inverts `EHostPort` with delimiter `"|"`
on IPv4 and IPv6 TCP addresses. -/
theorem parseEPRT_eHostPort (a : TCPAddrM)
    (hlen : a.ip.length = 4 ∨ a.ip.length = 16)
    (hbytes : ∀ x ∈ a.ip, x < 256) (hport : a.port < 65536) :
    (eHostPort "|".data a).bind parseEPRT = some a := by
  obtain ⟨ip, p⟩ := a
  simp only at hlen hbytes hport ⊢
  have hmem2 : ('|' ∈ ipString ip) = False := eq_false (pipe_not_mem_ipString ip)
  have hmem3 : ('|' ∈ decChars p) = False := eq_false (pipe_not_mem_decChars p)
  rcases hlen with h4 | h16
  · have hne16 : ¬ip.length = 16 := by omega
    have heh : eHostPort "|".data ⟨ip, p⟩
        = some ('|' :: (strJoin ['|'] ["1".data, ipString ip, decChars p]
            ++ ['|'])) := by
      simp +decide [eHostPort, h4, hmem2, hmem3, strJoin]
    rw [heh, Option.some_bind]
    unfold parseEPRT
    rw [splitEAddr_pipe "1".data (ipString ip) (decChars p) (by decide)
      (pipe_not_mem_ipString ip) (pipe_not_mem_decChars p)]
    simp +decide [lookupPortTCP_decChars p (by omega : p ≤ 65535),
      parseIP_ipString_4 ip h4 hbytes]
  · have heh : eHostPort "|".data ⟨ip, p⟩
        = some ('|' :: (strJoin ['|'] ["2".data, ipString ip, decChars p]
            ++ ['|'])) := by
      simp +decide [eHostPort, h16, hmem2, hmem3, strJoin]
    rw [heh, Option.some_bind]
    unfold parseEPRT
    rw [splitEAddr_pipe "2".data (ipString ip) (decChars p) (by decide)
      (pipe_not_mem_ipString ip) (pipe_not_mem_decChars p)]
    simp +decide [lookupPortTCP_decChars p (by omega : p ≤ 65535),
      parseIP_ipString_16 ip h16 hbytes]

/-- Under the latch, PASV, PORT and EPRT are rejected outright: 550 reply,
no action, and a completely unchanged state. -/
theorem fileHandle_latch (o : Oracle) (st : FCtx) (c : Cmd)
    (he : st.epsvOnly = true)
    (hc : c.cmd = "PASV".data ∨ c.cmd = "PORT".data ∨ c.cmd = "EPRT".data) :
    fileHandle o st c = (st, [(550, c.cmd ++ " is disallowed.".data)], []) := by
  obtain ⟨cc, cm⟩ := c
  simp only at hc ⊢
  rcases hc with h | h | h <;> subst h <;> simp +decide [fileHandle, he]

theorem loopStep_fst_epsv (o : Oracle) (st : FCtx) (c : Cmd) :
    (loopStep o st c).1.epsvOnly = (fileHandle o st c).1.epsvOnly := by
  unfold loopStep
  rcases hfh : fileHandle o st c with ⟨st2, rps, acts⟩
  by_cases hq : c.cmd ≠ "QUIT".data ∧ c.cmd ≠ "RNFR".data <;> simp [hq]

/-- After any iteration whose command is neither RNFR nor QUIT, the rename
source is empty. -/
theorem loopStep_resets_renameSrc (o : Oracle) (st : FCtx) (c : Cmd)
    (h1 : c.cmd ≠ "RNFR".data) (h2 : c.cmd ≠ "QUIT".data) :
    (loopStep o st c).1.renameSrc = [] := by
  unfold loopStep
  rcases hfh : fileHandle o st c with ⟨st2, rps, acts⟩
  simp [h1, h2]

/-- RNTO with a nonempty argument and an empty rename source replies 503,
performs nothing, and leaves the state unchanged. -/
theorem fileHandle_rnto_503 (o : Oracle) (st : FCtx) (c : Cmd)
    (hr : st.renameSrc = []) (hc : c.cmd = "RNTO".data) (hm : c.msg ≠ []) :
    fileHandle o st c = (st, [(503, "Call RNFR first.".data)], []) := by
  obtain ⟨cc, cm⟩ := c
  simp only at hc hm ⊢
  subst hc
  simp +decide [fileHandle, hm, hr]

/-- C5: `EPSV ALL` (src/handler.go) sets the latch and replies 200; the flag
is only ever written by that command; and from any latched state, every
later PASV, PORT or EPRT in the command loop is answered 550 with the data
endpoint untouched, the latch surviving every step until the session ends. -/
theorem c5_epsv_all_latch :
    (∀ (o : Oracle) (st : FCtx) (cm : Str),
        fileHandle o st ⟨"EPSV".data, "ALL".data⟩
          = ({ st with epsvOnly := true }, [(200, "EPSV ALL ok.".data)], []))
      ∧ (∀ (o : Oracle) (st : FCtx) (c : Cmd),
          (fileHandle o st c).1.epsvOnly
            = (st.epsvOnly || (c.cmd = "EPSV".data && c.msg = "ALL".data)))
      ∧ (∀ (o : Oracle) (st : FCtx) (c : Cmd),
          st.epsvOnly = true →
          (c.cmd = "PASV".data ∨ c.cmd = "PORT".data ∨ c.cmd = "EPRT".data) →
          fileHandle o st c = (st, [(550, c.cmd ++ " is disallowed.".data)], []))
      ∧ (∀ (o : Oracle) (st : FCtx) (cs : List Cmd) (e : FCtx × Cmd × List RpE × FCtx),
          st.epsvOnly = true → e ∈ traceRun o st cs →
          e.1.epsvOnly = true ∧ e.2.2.2.epsvOnly = true
            ∧ ((e.2.1.cmd = "PASV".data ∨ e.2.1.cmd = "PORT".data
                  ∨ e.2.1.cmd = "EPRT".data) →
                e.2.2.1 = [(550, e.2.1.cmd ++ " is disallowed.".data)]
                  ∧ e.2.2.2.data = e.1.data)) := by
  refine ⟨?_, fileHandle_epsvOnly, fileHandle_latch, ?_⟩
  · intro o st cm
    simp +decide [fileHandle]
  · intro o st cs
    induction cs generalizing st with
    | nil => intro e he hmem; simp [traceRun] at hmem
    | cons c cs ih =>
      intro e he hmem
      rcases hls : loopStep o st c with ⟨st2, rps, acts⟩
      have hst2 : st2.epsvOnly = true := by
        have h := loopStep_fst_epsv o st c
        rw [hls] at h
        simp only at h
        rw [h, fileHandle_epsvOnly, he]
        simp
      rw [traceRun, hls] at hmem
      simp only [List.mem_cons] at hmem
      rcases hmem with hmem | hmem
      · subst hmem
        refine ⟨he, hst2, ?_⟩
        intro hcset
        simp only at hcset
        have hfh := fileHandle_latch o st c he hcset
        have hnq : c.cmd ≠ "QUIT".data ∧ c.cmd ≠ "RNFR".data := by
          rcases hcset with h | h | h <;> rw [h] <;> exact ⟨by decide, by decide⟩
        have hthis : loopStep o st c
            = ({ st with renameSrc := [] }, [(550, c.cmd ++ " is disallowed.".data)], []) := by
          unfold loopStep
          rw [hfh]
          simp [hnq]
        rw [hthis] at hls
        have h1 : ({ st with renameSrc := [] } : FCtx) = st2 := congrArg Prod.fst hls
        have h2 := congrArg (fun p => p.2.1) hls
        simp only at h1 h2
        constructor
        · simpa using h2.symm
        · simp [← h1]
      · by_cases hq : c.cmd = "QUIT".data
        · simp [hq] at hmem
        · simp only [hq, if_false] at hmem
          exact ih st2 e hst2 hmem

/-- C5 witness: in a latched state a PASV command is refused with 550 and
the state survives untouched. -/
theorem c5_epsv_all_latch_witness :
    fileHandle oracle0 { fctx0 with epsvOnly := true } ⟨"PASV".data, []⟩
      = ({ fctx0 with epsvOnly := true },
          [(550, "PASV".data ++ " is disallowed.".data)], []) :=
  c5_epsv_all_latch.2.2.1 oracle0 { fctx0 with epsvOnly := true }
    ⟨"PASV".data, []⟩ rfl (Or.inl rfl)

/-- C6: the rename source is cleared at the end of every loop iteration
whose command is not RNFR, so an RNTO with a nonempty argument whose
immediately preceding command was anything but RNFR (and the session still
running, i.e. the previous command was not QUIT) is refused with 503, with
no rename performed and no state change. -/
theorem c6_rnto_requires_rnfr :
    (∀ (o : Oracle) (st : FCtx) (prev : Cmd),
        prev.cmd ≠ "RNFR".data → prev.cmd ≠ "QUIT".data →
        (loopStep o st prev).1.renameSrc = [])
      ∧ (∀ (o : Oracle) (st : FCtx) (c : Cmd),
          st.renameSrc = [] → c.cmd = "RNTO".data → c.msg ≠ [] →
          fileHandle o st c = (st, [(503, "Call RNFR first.".data)], []))
      ∧ (∀ (o : Oracle) (st : FCtx) (prev c : Cmd),
          prev.cmd ≠ "RNFR".data → prev.cmd ≠ "QUIT".data →
          c.cmd = "RNTO".data → c.msg ≠ [] →
          fileHandle o (loopStep o st prev).1 c
            = ((loopStep o st prev).1, [(503, "Call RNFR first.".data)], [])) := by
  refine ⟨loopStep_resets_renameSrc, fileHandle_rnto_503, ?_⟩
  intro o st prev c h1 h2 h3 h4
  exact fileHandle_rnto_503 o _ c (loopStep_resets_renameSrc o st prev h1 h2) h3 h4

/-- C6 witness: NOOP between RNFR and RNTO clears the rename source, so the
RNTO is refused, at concrete inputs. -/
theorem c6_rnto_requires_rnfr_witness :
    fileHandle oracle0 (loopStep oracle0 fctx0 ⟨"NOOP".data, []⟩).1
        ⟨"RNTO".data, "b".data⟩
      = ((loopStep oracle0 fctx0 ⟨"NOOP".data, []⟩).1,
          [(503, "Call RNFR first.".data)], []) :=
  c6_rnto_requires_rnfr.2.2 oracle0 fctx0 ⟨"NOOP".data, []⟩
    ⟨"RNTO".data, "b".data⟩ (by decide) (by decide) rfl (by decide)

/-- C2: round trips of the address renderings (src/conn.go).  For a TCP
address with in-range bytes and a 16-bit port: if the IP is 4 bytes,
`ParsePORT` inverts `HostPort`; if the IP is 4 or 16 bytes, `ParseEPRT`
inverts `EHostPort` with the `"|"` delimiter, returning the same IP bytes
and the same port. -/
theorem c2_addr_roundtrip (a : TCPAddrM)
    (hbytes : ∀ x ∈ a.ip, x < 256) (hport : a.port < 65536) :
    (a.ip.length = 4 → (hostPort a).bind parsePORT = some a)
      ∧ (a.ip.length = 4 ∨ a.ip.length = 16 →
          (eHostPort "|".data a).bind parseEPRT = some a) :=
  ⟨fun h4 => parsePORT_hostPort a h4 hbytes hport,
    fun hlen => parseEPRT_eHostPort a hlen hbytes hport⟩

/-- C2 witness: the round trips at the concrete addresses 127.0.0.1:2121
and [2001:db8::1]:443. -/
theorem c2_addr_roundtrip_witness :
    ((∀ x ∈ ([127, 0, 0, 1] : List Nat), x < 256) ∧ 2121 < 65536
      ∧ ((([127, 0, 0, 1] : List Nat).length = 4 →
            (hostPort ⟨[127, 0, 0, 1], 2121⟩).bind parsePORT
              = some ⟨[127, 0, 0, 1], 2121⟩)
          ∧ (([127, 0, 0, 1] : List Nat).length = 4
              ∨ ([127, 0, 0, 1] : List Nat).length = 16 →
              (eHostPort "|".data ⟨[127, 0, 0, 1], 2121⟩).bind parseEPRT
                = some ⟨[127, 0, 0, 1], 2121⟩)))
    ∧ ((∀ x ∈ ([32, 1, 13, 184, 0, 0, 0, 0, 0, 0, 0, 0, 0, 0, 0, 1] :
          List Nat), x < 256) ∧ 443 < 65536
      ∧ ((([32, 1, 13, 184, 0, 0, 0, 0, 0, 0, 0, 0, 0, 0, 0, 1] :
            List Nat).length = 4 →
            (hostPort ⟨[32, 1, 13, 184, 0, 0, 0, 0, 0, 0, 0, 0, 0, 0, 0, 1],
                443⟩).bind parsePORT
              = some ⟨[32, 1, 13, 184, 0, 0, 0, 0, 0, 0, 0, 0, 0, 0, 0, 1],
                  443⟩)
          ∧ (([32, 1, 13, 184, 0, 0, 0, 0, 0, 0, 0, 0, 0, 0, 0, 1] :
                List Nat).length = 4
              ∨ ([32, 1, 13, 184, 0, 0, 0, 0, 0, 0, 0, 0, 0, 0, 0, 1] :
                  List Nat).length = 16 →
              (eHostPort "|".data
                  ⟨[32, 1, 13, 184, 0, 0, 0, 0, 0, 0, 0, 0, 0, 0, 0, 1],
                    443⟩).bind parseEPRT
                = some ⟨[32, 1, 13, 184, 0, 0, 0, 0, 0, 0, 0, 0, 0, 0, 0, 1],
                    443⟩))) :=
  ⟨⟨by decide, by decide,
      c2_addr_roundtrip ⟨[127, 0, 0, 1], 2121⟩ (by decide) (by decide)⟩,
    ⟨by decide, by decide,
      c2_addr_roundtrip
        ⟨[32, 1, 13, 184, 0, 0, 0, 0, 0, 0, 0, 0, 0, 0, 0, 1], 443⟩
        (by decide) (by decide)⟩⟩

end Ftp
